import Mathlib

/-!
# Verification of the Rapunzel native helper (`src/native-app/native-host.js`)

A shallow embedding of the helper process: the length-prefixed JSON message
framer (`readMessage`/`sendMessage`), the extension scanner
(`scanExtensionsFolder`), the load/unload orchestration
(`loadExtensionViaRDP`/`unloadExtension`), the in-memory state
(`config`/`loadedExtensions`), and the dispatcher (`handleMessage`/`main`).

Strings are modelled as byte lists (`List Nat`, a JS string identified with
its UTF-8 code units).  JSON values are modelled by the inductive `Json`
below, with integer numerics; the platform's `JSON.stringify`/`JSON.parse`
pair, which the source delegates to, is modelled by `stringifyV`/`parseJson`
over the whitespace-free JSON grammar that the serializer emits (control
bytes in strings escaped uniformly as `\u00XX`).

The event-driven pieces (`process.stdin` reads, promises, spawned processes,
the filesystem) are embedded denotationally: the input stream is a finite
byte list followed by end-of-stream, the filesystem and platform probes are
a read-only `Env` of pure functions, and externally visible actions are
recorded as an `Effect` trace.
-/

/-- A JS string, identified with its UTF-8 code-unit (byte) sequence. -/
abbrev JStr := List Nat

/-- Byte sequence of an ASCII string literal (code points = UTF-8 bytes). -/
def asciiBytes (s : String) : JStr := s.data.map Char.toNat

/-- Model of JSON values (the values `JSON.parse` produces and
`JSON.stringify` consumes), with integer numerics; object members are kept
as an ordered list of key/value pairs. -/
inductive Json where
  | null : Json
  | bool (b : Bool) : Json
  | num (i : Int) : Json
  | str (s : JStr) : Json
  | arr (elems : List Json) : Json
  | obj (members : List (JStr × Json)) : Json
deriving Repr

/-- A possibly-`undefined` JS value: `none` models `undefined` (an absent
property), `some j` a JSON value. -/
abbrev JsVal := Option Json

/-- Decimal digit byte of a value `< 10`. -/
def digitByte (d : Nat) : Nat := 0x30 + d

/-- Lower-case hexadecimal digit byte of a value `< 16` (as emitted in the
serializer's `\u00XX` escapes). -/
def hexDigitByte (d : Nat) : Nat := if d < 10 then 0x30 + d else 0x57 + d

/-- Fuelled worker for `natBytes` (fuel only to make the recursion
structural; any fuel above the argument is enough). -/
def natBytesF : Nat → Nat → List Nat
  | 0, _ => []
  | f + 1, n => if n < 10 then [digitByte n] else natBytesF f (n / 10) ++ [digitByte (n % 10)]

/-- Decimal digit bytes of a natural number, most significant first
(no leading zeros; `0` prints as `"0"`). -/
def natBytes (n : Nat) : List Nat := natBytesF (n + 1) n

/-- Decimal bytes of an integer, as the platform serializer prints an
integral number. -/
def intBytes (i : Int) : List Nat :=
  if i < 0 then 0x2D :: natBytes i.natAbs else natBytes i.toNat

/-- Serialization of one string byte: `"` and `\` get a backslash escape,
control bytes are escaped as `\u00XX`, everything else passes through. -/
def escByte (b : Nat) : List Nat :=
  if b = 0x22 then [0x5C, 0x22]
  else if b = 0x5C then [0x5C, 0x5C]
  else if b < 0x20 then [0x5C, 0x75, 0x30, 0x30, hexDigitByte (b / 16), hexDigitByte (b % 16)]
  else [b]

/-- Serialization of a string body (concatenated byte escapes). -/
def escapeStr : JStr → List Nat
  | [] => []
  | b :: bs => escByte b ++ escapeStr bs

/-- A JSON string literal: quote, escaped body, quote. -/
def strLit (s : JStr) : List Nat := 0x22 :: (escapeStr s ++ [0x22])

mutual
/-- Model of `JSON.stringify` (no indentation): the byte sequence of the
serialized value. -/
def stringifyV : Json → List Nat
  | .null => [0x6E, 0x75, 0x6C, 0x6C]
  | .bool true => [0x74, 0x72, 0x75, 0x65]
  | .bool false => [0x66, 0x61, 0x6C, 0x73, 0x65]
  | .num i => intBytes i
  | .str s => strLit s
  | .arr [] => [0x5B, 0x5D]
  | .arr (x :: xs) => 0x5B :: (stringifyV x ++ stringifyArrTail xs)
  | .obj [] => [0x7B, 0x7D]
  | .obj (m :: ms) => 0x7B :: (stringifyMember m ++ stringifyObjTail ms)
termination_by structural v => v

/-- Remaining elements of a serialized array: `,elem...` then `]`. -/
def stringifyArrTail : List Json → List Nat
  | [] => [0x5D]
  | x :: xs => 0x2C :: (stringifyV x ++ stringifyArrTail xs)
termination_by structural l => l

/-- One serialized object member: `"key":value`. -/
def stringifyMember : JStr × Json → List Nat
  | (k, v) => strLit k ++ (0x3A :: stringifyV v)
termination_by structural m => m

/-- Remaining members of a serialized object: `,member...` then `}`. -/
def stringifyObjTail : List (JStr × Json) → List Nat
  | [] => [0x7D]
  | m :: ms => 0x2C :: (stringifyMember m ++ stringifyObjTail ms)
termination_by structural l => l
end

/-- Is `c` a decimal digit byte? -/
def isDigitByte (c : Nat) : Bool := 0x30 ≤ c && c ≤ 0x39

/-- Value of a hexadecimal digit byte. -/
def hexVal (c : Nat) : Option Nat :=
  if 0x30 ≤ c && c ≤ 0x39 then some (c - 0x30)
  else if 0x61 ≤ c && c ≤ 0x66 then some (c - 0x57)
  else if 0x41 ≤ c && c ≤ 0x46 then some (c - 0x37)
  else none

/-- Greedily consume decimal digit bytes, accumulating their value. -/
def parseDigits : List Nat → Nat → Nat × List Nat
  | [], acc => (acc, [])
  | c :: s, acc => if isDigitByte c then parseDigits s (acc * 10 + (c - 0x30)) else (acc, c :: s)

/-- Parse the body of a string literal after the opening quote, up to and
including the closing quote; returns the unescaped bytes and the tail. -/
def parseStrBody : List Nat → Option (JStr × List Nat)
  | [] => none
  | c :: s =>
    if c = 0x22 then some ([], s)
    else if c = 0x5C then
      match s with
      | [] => none
      | e :: s' =>
        if e = 0x22 then (parseStrBody s').map (fun p => (0x22 :: p.1, p.2))
        else if e = 0x5C then (parseStrBody s').map (fun p => (0x5C :: p.1, p.2))
        else if e = 0x75 then
          match s' with
          | h1 :: h2 :: h3 :: h4 :: s'' =>
            match hexVal h1, hexVal h2, hexVal h3, hexVal h4 with
            | some a, some b, some c', some d =>
              let v := ((a * 16 + b) * 16 + c') * 16 + d
              if v < 0x20 then (parseStrBody s'').map (fun p => (v :: p.1, p.2)) else none
            | _, _, _, _ => none
          | _ => none
        else none
    else if c < 0x20 then none
    else (parseStrBody s).map (fun p => (c :: p.1, p.2))

/-- Match an expected literal byte sequence at the front of the input. -/
def expectBytes : List Nat → List Nat → Option (List Nat)
  | [], s => some s
  | p :: ps, c :: s => if c = p then expectBytes ps s else none
  | _ :: _, [] => none

mutual
/-- Model of `JSON.parse`'s recursive descent over the whitespace-free
grammar, fuelled; parses one value off the front, returning it and the
unconsumed tail. -/
def parseValue : Nat → List Nat → Option (Json × List Nat)
  | 0, _ => none
  | _ + 1, [] => none
  | f + 1, c :: s =>
    if c = 0x6E then (expectBytes [0x75, 0x6C, 0x6C] s).map (fun r => (.null, r))
    else if c = 0x74 then (expectBytes [0x72, 0x75, 0x65] s).map (fun r => (.bool true, r))
    else if c = 0x66 then (expectBytes [0x61, 0x6C, 0x73, 0x65] s).map (fun r => (.bool false, r))
    else if c = 0x22 then (parseStrBody s).map (fun p => (.str p.1, p.2))
    else if c = 0x2D then
      match s with
      | [] => none
      | d :: _ =>
        if isDigitByte d then
          let p := parseDigits s 0
          some (.num (-(p.1 : Int)), p.2)
        else none
    else if isDigitByte c then
      let p := parseDigits (c :: s) 0
      some (.num (p.1 : Int), p.2)
    else if c = 0x5B then
      match s with
      | [] => none
      | d :: r =>
        if d = 0x5D then some (.arr [], r)
        else
          match parseValue f (d :: r) with
          | some (v, r2) => parseArrTail f r2 [v]
          | none => none
    else if c = 0x7B then
      match s with
      | [] => none
      | d :: r =>
        if d = 0x7D then some (.obj [], r)
        else
          match parseMember f (d :: r) with
          | some (kv, r2) => parseObjTail f r2 [kv]
          | none => none
    else none
termination_by structural f _ => f

/-- After one array element: `]` closes, `,` parses the next element. -/
def parseArrTail : Nat → List Nat → List Json → Option (Json × List Nat)
  | 0, _, _ => none
  | _ + 1, [], _ => none
  | f + 1, c :: s, acc =>
    if c = 0x5D then some (.arr acc.reverse, s)
    else if c = 0x2C then
      match parseValue f s with
      | some (v, r2) => parseArrTail f r2 (v :: acc)
      | none => none
    else none
termination_by structural f _ _ => f

/-- One object member: `"key":value`. -/
def parseMember : Nat → List Nat → Option ((JStr × Json) × List Nat)
  | 0, _ => none
  | _ + 1, [] => none
  | f + 1, c :: s =>
    if c = 0x22 then
      match parseStrBody s with
      | some (k, r) =>
        match r with
        | 0x3A :: r' =>
          match parseValue f r' with
          | some (v, r2) => some ((k, v), r2)
          | none => none
        | _ => none
      | none => none
    else none
termination_by structural f _ => f

/-- After one object member: `}` closes, `,` parses the next member. -/
def parseObjTail : Nat → List Nat → List (JStr × Json) → Option (Json × List Nat)
  | 0, _, _ => none
  | _ + 1, [], _ => none
  | f + 1, c :: s, acc =>
    if c = 0x7D then some (.obj acc.reverse, s)
    else if c = 0x2C then
      match parseMember f s with
      | some (kv, r2) => parseObjTail f r2 (kv :: acc)
      | none => none
    else none
termination_by structural f _ _ => f
end

/-- Model of `JSON.parse` on a complete body: the whole input must be
consumed by one value. -/
def parseJson (body : List Nat) : Option Json :=
  match parseValue (body.length + 1) body with
  | some (v, []) => some v
  | _ => none

/-- The four bytes `Buffer.writeUInt32LE` stores for `n`
(`native-host.js` line 82). -/
def writeUInt32LE (n : Nat) : List Nat :=
  [n % 256, n / 256 % 256, n / 65536 % 256, n / 16777216 % 256]

/-- `sendMessage` (`native-host.js` lines 78-86) as the byte sequence it
writes to stdout: 4-byte little-endian length prefix, then the UTF-8 JSON
body. -/
def sendMessageBytes (message : Json) : List Nat :=
  writeUInt32LE (stringifyV message).length ++ stringifyV message

/-- Outcome of one `readMessage` call (`native-host.js` lines 35-73) on a
finite input stream (the remaining stdin bytes, after which the stream
ends).  `frame` is the resolve path with the decoded message and the
unconsumed stream; `invalidJson` is the reject path (`Invalid JSON: ...`);
`endOfInput` is the `resolve(null)` path — note that an advertised length of
`0` or `≥ 1 MiB` never resolves nor rejects in the source (the `readable`
handler's guard `messageLength > 0 && messageLength < 1024 * 1024` just
stops consuming), so with a finite stream the eventual outcome is the `end`
event's `resolve(null)`, i.e. `endOfInput`: no error value is ever produced
for those lengths. -/
inductive ReadResult where
  | frame (message : Json) (rest : List Nat) : ReadResult
  | invalidJson (rest : List Nat) : ReadResult
  | endOfInput : ReadResult
deriving Repr

/-- Denotational model of `readMessage` on the remaining input stream. -/
def readMessage (input : List Nat) : ReadResult :=
  match input with
  | b0 :: b1 :: b2 :: b3 :: rest =>
    let len := b0 + 256 * b1 + 65536 * b2 + 16777216 * b3
    if 0 < len ∧ len < 1048576 then
      if len ≤ rest.length then
        match parseJson (rest.take len) with
        | some v => .frame v (rest.drop len)
        | none => .invalidJson (rest.drop len)
      else .endOfInput
    else .endOfInput
  | _ => .endOfInput

/-! ## Host process model

The ambient platform (`fs`, `os`, `child_process`, `process.env`, the
clock) as a read-only environment of pure functions.  `existsF` is
`fs.existsSync` (which swallows errors and is `false` on non-path
arguments), `files` is `fs.readFileSync` (`none` = throws), `dirs` is
`fs.readdirSync` with `withFileTypes` (entry name and `isDirectory()`;
`none` = throws), `execSync` is keyed by the command line (`none` =
throws), `copyFails` injects a filesystem failure inside `copyDirSync` for
a given source, and `killThrows` tells whether `process.kill` throws for a
pid. -/
structure Env where
  platform : JStr
  homedir : JStr
  tmpdir : JStr
  now : Nat
  envAppData : Option JStr
  existsF : JStr → Bool
  files : JStr → Option JStr
  dirs : JStr → Option (List (JStr × Bool))
  execSync : JStr → Option JStr
  copyFails : JStr → Bool
  killThrows : Nat → Bool

/-- The in-memory `config` object (`native-host.js` lines 24-28); each
field is a JS value (possibly `undefined` after a `set_folder` with no
`path`). -/
structure Config where
  extensionFolder : JsVal
  firefoxPath : JsVal
  watchEnabled : JsVal
deriving Repr

/-- The built-in defaults of the `config` literal. -/
def configDefaults : Config :=
  { extensionFolder := some (.str []), firefoxPath := some (.str []),
    watchEnabled := some (.bool false) }

/-- One value of the `loadedExtensions` map: `{ process, method }`
(`native-host.js` line 239); the process handle is modelled by its pid. -/
structure LoadedRec where
  process : Option Nat
  method : JStr
deriving Repr, DecidableEq

/-- The helper's mutable state: `config`, the `loadedExtensions` map
(association list in insertion order, as a JS `Map` iterates), and a
counter allocating pids for spawned processes. -/
structure HostState where
  config : Config
  loaded : List (JStr × LoadedRec)
  nextPid : Nat
deriving Repr

/-- Externally visible actions of a handler, in order. -/
inductive Effect where
  | spawned (cmd : JStr) (args : List JStr) (pid : Nat)
  | killAttempt (pid : Nat) (ok : Bool)
  | configWrite (c : Config)
  | mkdirp (p : JStr)
  | fileWrite (p : JStr)
  | copyTree (src dest : JStr)
deriving Repr

/-- Is this effect a write of the config file (`saveConfig`)? -/
def Effect.isConfigWrite : Effect → Bool
  | .configWrite _ => true
  | _ => false

/-- Result of handling one message: the response frames written via
`sendMessage` (in order), the effect trace, and the state afterwards. -/
structure HOut where
  sent : List Json
  effects : List Effect
  state : HostState

/-- JS object property lookup on parsed JSON: later duplicate keys win
(as in `JSON.parse`); `none` models `undefined`. -/
def lookupLast : List (JStr × Json) → JStr → Option Json
  | [], _ => none
  | (k', v) :: t, k =>
    match lookupLast t k with
    | some r => some r
    | none => if k' = k then some v else none

/-- `message.key` on an arbitrary JS value: property access on a
non-object is `undefined`. -/
def jget (j : Json) (k : JStr) : Option Json :=
  match j with
  | .obj ms => lookupLast ms k
  | _ => none

/-- JS truthiness of a JSON value. -/
def truthy : Json → Bool
  | .null => false
  | .bool b => b
  | .num i => i != 0
  | .str s => !s.isEmpty
  | .arr _ => true
  | .obj _ => true

/-- JS truthiness of a possibly-`undefined` value. -/
def truthyV : JsVal → Bool
  | none => false
  | some j => truthy j

/-- The JS `a || b` default pattern for a possibly-`undefined` `a`. -/
def jsOrU (v : Option Json) (dflt : Json) : Json :=
  match v with
  | some j => if truthy j then j else dflt
  | none => dflt

/-- An object field for a possibly-`undefined` value: `JSON.stringify`
omits `undefined`-valued properties, so `undefined` contributes no field
to the serialized frame. -/
def jfield (k : String) (v : JsVal) : List (JStr × Json) :=
  match v with
  | some j => [(asciiBytes k, j)]
  | none => []

/-- `path.join` of two segments (separator modelled uniformly as `/`). -/
def pjoin (a b : JStr) : JStr := a ++ (0x2F :: b)

/-- `CONFIG_FILE = path.join(os.homedir(), '.rapunzel', 'config.json')`. -/
def configFilePath (env : Env) : JStr := env.homedir ++ asciiBytes "/.rapunzel/config.json"

/-- `loadConfig` (`native-host.js` lines 91-105): read the config file if
present and spread its parsed keys over the defaults; any read or parse
failure (or a non-object file) leaves the defaults. -/
def loadConfig (env : Env) : Config :=
  if env.existsF (configFilePath env) then
    match (env.files (configFilePath env)).bind parseJson with
    | some (.obj ms) =>
      { extensionFolder :=
          match lookupLast ms (asciiBytes "extensionFolder") with
          | some v => some v
          | none => configDefaults.extensionFolder,
        firefoxPath :=
          match lookupLast ms (asciiBytes "firefoxPath") with
          | some v => some v
          | none => configDefaults.firefoxPath,
        watchEnabled :=
          match lookupLast ms (asciiBytes "watchEnabled") with
          | some v => some v
          | none => configDefaults.watchEnabled }
    | _ => configDefaults
  else configDefaults

/-- The state after startup (`main` calls `loadConfig` once; the registry
starts empty). -/
def initState (env : Env) : HostState :=
  { config := loadConfig env, loaded := [], nextPid := 0 }

/-- Platform-specific Firefox candidate paths
(`native-host.js` lines 140-159). -/
def firefoxCandidates (env : Env) : List JStr :=
  if env.platform = asciiBytes "win32" then
    [asciiBytes "C:\\Program Files\\Mozilla Firefox\\firefox.exe",
     asciiBytes "C:\\Program Files (x86)\\Mozilla Firefox\\firefox.exe",
     env.homedir ++ asciiBytes "/AppData/Local/Mozilla Firefox/firefox.exe"]
  else if env.platform = asciiBytes "darwin" then
    [asciiBytes "/Applications/Firefox.app/Contents/MacOS/firefox",
     asciiBytes "/Applications/Firefox Developer Edition.app/Contents/MacOS/firefox",
     asciiBytes "/Applications/Firefox Nightly.app/Contents/MacOS/firefox"]
  else
    [asciiBytes "/usr/bin/firefox", asciiBytes "/usr/local/bin/firefox",
     asciiBytes "/snap/bin/firefox", asciiBytes "/usr/bin/firefox-developer-edition"]

/-- `getFirefoxPath` (`native-host.js` lines 132-168): a truthy configured
path that exists wins, else the first existing platform candidate, else
`null` (`none`). -/
def getFirefoxPath (env : Env) (cfg : Config) : Option JStr :=
  match cfg.firefoxPath with
  | some (.str p) =>
    if !p.isEmpty && env.existsF p then some p
    else (firefoxCandidates env).find? env.existsF
  | _ => (firefoxCandidates env).find? env.existsF

/-- Is `b` an ASCII whitespace byte (for `String.prototype.trim`)? -/
def isWsByte (b : Nat) : Bool := b = 0x20 || b = 0x09 || b = 0x0A || b = 0x0D

/-- `s.trim()` on byte strings. -/
def trimBytes (s : JStr) : JStr :=
  ((s.dropWhile isWsByte).reverse.dropWhile isWsByte).reverse

/-- `s.split('\n')[0]` after a trim. -/
def firstLineOf (s : JStr) : JStr := s.takeWhile (fun b => b != 0x0A)

/-- `findWebExt` (`native-host.js` lines 282-304): `which`/`where web-ext`
via `execSync` (first line of the trimmed output), else the fixed npm
global install path if it exists, else `null`. -/
def findWebExt (env : Env) : Option JStr :=
  let cmd := if env.platform = asciiBytes "win32" then asciiBytes "where" else asciiBytes "which"
  match env.execSync (cmd ++ (0x20 :: asciiBytes "web-ext")) with
  | some out => some (firstLineOf (trimBytes out))
  | none =>
    let npmGlobal :=
      if env.platform = asciiBytes "win32" then
        pjoin (pjoin (env.envAppData.getD []) (asciiBytes "npm")) (asciiBytes "web-ext.cmd")
      else asciiBytes "/usr/local/bin/web-ext"
    if env.existsF npmGlobal then some npmGlobal else none

/-- One scanned extension candidate (`native-host.js` lines 193-200). -/
structure ExtDesc where
  name : Json
  version : Json
  description : Json
  path : JStr
  folder : JStr
  manifestVersion : Json
deriving Repr

/-- The JSON object a descriptor contributes to an `extensions_list`. -/
def descJson (d : ExtDesc) : Json :=
  .obj [(asciiBytes "name", d.name), (asciiBytes "version", d.version),
        (asciiBytes "description", d.description), (asciiBytes "path", .str d.path),
        (asciiBytes "folder", d.folder |> .str), (asciiBytes "manifestVersion", d.manifestVersion)]

/-- The scanner's loop over directory entries (`native-host.js` lines
185-207): keep directories whose `manifest.json` exists and parses; a
missing or unparsable manifest skips that entry only.  A manifest whose
JSON is `null` also skips: the `manifest.name` access inside the same
`try` throws a `TypeError` on `null`, and the catch logs and skips that
directory (property access on any other JSON value merely yields
`undefined` and falls back to the defaults). -/
def scanEntries (env : Env) (folder : JStr) : List (JStr × Bool) → List ExtDesc
  | [] => []
  | (nm, isDir) :: es =>
    if isDir then
      let extPath := pjoin folder nm
      let manifestPath := pjoin extPath (asciiBytes "manifest.json")
      if env.existsF manifestPath then
        match (env.files manifestPath).bind parseJson with
        | some .null => scanEntries env folder es
        | some m =>
          { name := jsOrU (jget m (asciiBytes "name")) (.str nm),
            version := jsOrU (jget m (asciiBytes "version")) (.str (asciiBytes "0.0.0")),
            description := jsOrU (jget m (asciiBytes "description")) (.str []),
            path := extPath, folder := nm,
            manifestVersion := jsOrU (jget m (asciiBytes "manifest_version")) (.num 2) }
            :: scanEntries env folder es
        | none => scanEntries env folder es
      else scanEntries env folder es
    else scanEntries env folder es

/-- `scanExtensionsFolder` (`native-host.js` lines 173-213): empty or
non-existent folder (or a non-string one, on which `existsSync` is false
and `readdirSync` throws into the catch) yields `[]`; otherwise the
entries scan. -/
def scanExtensionsFolder (env : Env) (cfg : Config) : List ExtDesc :=
  match cfg.extensionFolder with
  | some (.str f) =>
    if !f.isEmpty && env.existsF f then
      match env.dirs f with
      | some entries => scanEntries env f entries
      | none => []
    else []
  | _ => []

/-- Registry lookup (`loadedExtensions.get`). -/
def mapGet : List (JStr × LoadedRec) → JStr → Option LoadedRec
  | [], _ => none
  | (k', v) :: t, k => if k' = k then some v else mapGet t k

/-- Registry insertion (`loadedExtensions.set`): replaces in place or
appends, as a JS `Map` keeps insertion order. -/
def mapSet : List (JStr × LoadedRec) → JStr → LoadedRec → List (JStr × LoadedRec)
  | [], k, v => [(k, v)]
  | (k', v') :: t, k, v => if k' = k then (k, v) :: t else (k', v') :: mapSet t k v

/-- Registry removal (`loadedExtensions.delete`). -/
def mapDelete : List (JStr × LoadedRec) → JStr → List (JStr × LoadedRec)
  | [], _ => []
  | (k', v') :: t, k => if k' = k then t else (k', v') :: mapDelete t k

/-- `loadExtensionViaRDP` (`native-host.js` lines 219-277).  Strategy 1
(`web-ext` found): spawn it detached and insert the registry record —
a non-string path makes `spawn` throw before the insertion.  Strategy 2
(no loader tool): fail with `Firefox not found` when no browser
executable exists; otherwise prepare a temporary profile (directory,
`user.js`, copy of the extension tree); a failing copy rejects.  The
result is the object the promise resolves with (as its field list), or
the rejection message; error-path messages are modelled by representative
constants. -/
def loadExtensionViaRDP (env : Env) (st : HostState) (pathV : JsVal) :
    Except JStr (List (JStr × Json)) × HostState × List Effect :=
  match findWebExt env with
  | some wx =>
    match pathV with
    | some (.str p) =>
      let pid := st.nextPid
      (.ok [(asciiBytes "success", .bool true), (asciiBytes "method", .str (asciiBytes "web-ext"))],
       { st with loaded := mapSet st.loaded p ⟨some pid, asciiBytes "web-ext"⟩, nextPid := pid + 1 },
       [.spawned wx [asciiBytes "run", asciiBytes "--source-dir", p,
                     asciiBytes "--no-reload", asciiBytes "--keep-profile-changes"] pid])
    | _ => (.error (asciiBytes "argument must be of type string"), st, [])
  | none =>
    match getFirefoxPath env st.config with
    | none => (.error (asciiBytes "Firefox not found"), st, [])
    | some _ =>
      let tempProfile := env.tmpdir ++ asciiBytes "/rapunzel-profile-" ++ natBytes env.now
      let prepEffects := [Effect.mkdirp tempProfile, Effect.fileWrite (pjoin tempProfile (asciiBytes "user.js"))]
      match pathV with
      | some (.str p) =>
        if env.copyFails p then (.error (asciiBytes "copy failed"), st, prepEffects)
        else
          (.ok [(asciiBytes "success", .bool true), (asciiBytes "method", .str (asciiBytes "profile")),
                (asciiBytes "profilePath", .str tempProfile),
                (asciiBytes "note", .str (asciiBytes "Extension prepared in temporary profile"))],
           st,
           prepEffects ++ [.copyTree p (pjoin (pjoin tempProfile (asciiBytes "extensions")) (asciiBytes "temp-extension"))])
      | _ => (.error (asciiBytes "argument must be of type string"), st, prepEffects)

/-- `path.basename` (last `/`-separated segment). -/
def basenameOf (p : JStr) : JStr := (p.reverse.takeWhile (fun b => b != 0x2F)).reverse

/-- The `case 'load'` handler (`native-host.js` lines 389-410): run the
orchestrator, then read and parse the extension's own `manifest.json` for
the display name; any rejection or manifest failure is caught into a
`success:false` response (the state reached so far is kept).  A manifest
whose JSON is `null` fails the same way: the `manifest.name` access on
line 398 throws a `TypeError` inside the `try`. -/
def handleLoad (env : Env) (st : HostState) (pathV : JsVal) : HOut :=
  match loadExtensionViaRDP env st pathV with
  | (.ok resultFields, st', effs) =>
    match pathV with
    | some (.str p) =>
      match (env.files (pjoin p (asciiBytes "manifest.json"))).bind parseJson with
      | some .null =>
        ⟨[.obj [(asciiBytes "type", .str (asciiBytes "load_result")),
                (asciiBytes "success", .bool false),
                (asciiBytes "error", .str (asciiBytes "manifest read failed")),
                (asciiBytes "path", .str p)]],
         effs, st'⟩
      | some m =>
        ⟨[.obj ([(asciiBytes "type", .str (asciiBytes "load_result")),
                 (asciiBytes "success", .bool true),
                 (asciiBytes "extensionName", jsOrU (jget m (asciiBytes "name")) (.str (basenameOf p))),
                 (asciiBytes "path", .str p)] ++ resultFields)],
         effs, st'⟩
      | none =>
        ⟨[.obj [(asciiBytes "type", .str (asciiBytes "load_result")),
                (asciiBytes "success", .bool false),
                (asciiBytes "error", .str (asciiBytes "manifest read failed")),
                (asciiBytes "path", .str p)]],
         effs, st'⟩
    | _ =>
      ⟨[.obj ([(asciiBytes "type", .str (asciiBytes "load_result")),
               (asciiBytes "success", .bool false),
               (asciiBytes "error", .str (asciiBytes "manifest read failed"))] ++ jfield "path" pathV)],
       effs, st'⟩
  | (.error e, st', effs) =>
    ⟨[.obj ([(asciiBytes "type", .str (asciiBytes "load_result")),
             (asciiBytes "success", .bool false),
             (asciiBytes "error", .str e)] ++ jfield "path" pathV)],
     effs, st'⟩

/-- `unloadExtension` (`native-host.js` lines 328-344): a present record
is removed after a best-effort `kill` (whose failure the `try`/`catch`
swallows); an absent one yields `success:false` with the not-loaded
message.  Returns the result object's fields, the new state and the
effects. -/
def unloadExtension (env : Env) (st : HostState) (pathV : JsVal) :
    List (JStr × Json) × HostState × List Effect :=
  match pathV with
  | some (.str p) =>
    match mapGet st.loaded p with
    | some r =>
      ([(asciiBytes "success", .bool true)],
       { st with loaded := mapDelete st.loaded p },
       match r.process with
       | some pid => [.killAttempt pid (!env.killThrows pid)]
       | none => [])
    | none =>
      ([(asciiBytes "success", .bool false),
        (asciiBytes "error", .str (asciiBytes "Extension not found in loaded list"))], st, [])
  | _ =>
    ([(asciiBytes "success", .bool false),
      (asciiBytes "error", .str (asciiBytes "Extension not found in loaded list"))], st, [])

/-- The `case 'load_all'` loop (`native-host.js` lines 416-423): apply the
orchestrator to each scanned candidate in order, collecting one result
entry per candidate; a rejection is caught into that entry only. -/
def loadAllGo (env : Env) : List ExtDesc → HostState → List Json × HostState × List Effect
  | [], st => ([], st, [])
  | d :: ds, st =>
    match loadExtensionViaRDP env st (some (.str d.path)) with
    | (.ok _, st', effs) =>
      let rest := loadAllGo env ds st'
      (.obj [(asciiBytes "name", d.name), (asciiBytes "success", .bool true)] :: rest.1,
       rest.2.1, effs ++ rest.2.2)
    | (.error e, st', effs) =>
      let rest := loadAllGo env ds st'
      (.obj [(asciiBytes "name", d.name), (asciiBytes "success", .bool false),
             (asciiBytes "error", .str e)] :: rest.1,
       rest.2.1, effs ++ rest.2.2)

/-- The `case 'unload_all'` loop (`native-host.js` lines 443-447) over the
snapshot of registry keys. -/
def unloadAllGo (env : Env) : List JStr → HostState → List Json × HostState × List Effect
  | [], st => ([], st, [])
  | p :: ps, st =>
    let one := unloadExtension env st (some (.str p))
    let rest := unloadAllGo env ps one.2.1
    (.obj ((asciiBytes "path", .str p) :: one.1) :: rest.1, rest.2.1, one.2.2 ++ rest.2.2)

/-- `results.filter(r => r.success).length`. -/
def countSuccess (results : List Json) : Nat :=
  (results.filter (fun r => truthyV (jget r (asciiBytes "success")))).length

/-- `results.filter(r => !r.success).length`. -/
def countFailed (results : List Json) : Nat :=
  (results.filter (fun r => !truthyV (jget r (asciiBytes "success")))).length

mutual
/-- One array element in `Array.prototype.toString`: `null` displays
empty. -/
def displayElem : Json → JStr
  | .null => []
  | .bool true => asciiBytes "true"
  | .bool false => asciiBytes "false"
  | .num i => intBytes i
  | .str s => s
  | .arr [] => []
  | .arr (x :: xs) => displayElem x ++ displayTail xs
  | .obj _ => asciiBytes "[object Object]"
termination_by structural v => v

/-- The remaining `,`-separated elements. -/
def displayTail : List Json → JStr
  | [] => []
  | x :: xs => 0x2C :: (displayElem x ++ displayTail xs)
termination_by structural l => l
end

/-- JS template-literal display of a value (`${action}`), for the
unknown-action message: primitives and arrays as `String(v)`, plain
objects as `[object Object]`. -/
def displayJson : Json → JStr
  | .null => asciiBytes "null"
  | .bool true => asciiBytes "true"
  | .bool false => asciiBytes "false"
  | .num i => intBytes i
  | .str s => s
  | .arr [] => []
  | .arr (x :: xs) => displayElem x ++ displayTail xs
  | .obj _ => asciiBytes "[object Object]"

/-- Display of a possibly-`undefined` value. -/
def displayV : JsVal → JStr
  | none => asciiBytes "undefined"
  | some j => displayJson j

/-- The `default` arm of the dispatcher switch. -/
def unknownAction (a : JsVal) (st : HostState) : HOut :=
  ⟨[.obj [(asciiBytes "type", .str (asciiBytes "error")),
          (asciiBytes "error", .str (asciiBytes "Unknown action: " ++ displayV a))]], [], st⟩

/-- The `case 'status'` response (`native-host.js` lines 353-360). -/
def statusResponse (env : Env) (st : HostState) : Json :=
  .obj ([(asciiBytes "type", .str (asciiBytes "status")),
         (asciiBytes "version", .str (asciiBytes "1.0.0")),
         (asciiBytes "firefoxPath",
          match getFirefoxPath env st.config with | some p => .str p | none => .null)]
        ++ jfield "extensionFolder" st.config.extensionFolder
        ++ [(asciiBytes "loadedCount", .num st.loaded.length)])

/-- An `extensions_list` response over a fresh scan (`native-host.js`
lines 363-370, also re-used by `set_folder`). -/
def extensionsListResponse (env : Env) (cfg : Config) : Json :=
  .obj ([(asciiBytes "type", .str (asciiBytes "extensions_list")),
         (asciiBytes "extensions", .arr ((scanExtensionsFolder env cfg).map descJson))]
        ++ jfield "folder" cfg.extensionFolder)

/-- `handleMessage` (`native-host.js` lines 349-460): dispatch on the
strict string value of `message.action`. -/
def handleMessage (env : Env) (st : HostState) (message : Json) : HOut :=
  let pathV := jget message (asciiBytes "path")
  match jget message (asciiBytes "action") with
  | some (.str a) =>
    if a = asciiBytes "status" then ⟨[statusResponse env st], [], st⟩
    else if a = asciiBytes "scan" then ⟨[extensionsListResponse env st.config], [], st⟩
    else if a = asciiBytes "set_folder" then
      let newCfg := { st.config with extensionFolder := pathV }
      ⟨[.obj ([(asciiBytes "type", .str (asciiBytes "folder_set")),
               (asciiBytes "success", .bool true)] ++ jfield "path" pathV),
        extensionsListResponse env newCfg],
       [.configWrite newCfg],
       { st with config := newCfg }⟩
    else if a = asciiBytes "load" then handleLoad env st pathV
    else if a = asciiBytes "load_all" then
      let r := loadAllGo env (scanExtensionsFolder env st.config) st
      ⟨[.obj [(asciiBytes "type", .str (asciiBytes "load_all_result")),
              (asciiBytes "results", .arr r.1),
              (asciiBytes "totalLoaded", .num (countSuccess r.1)),
              (asciiBytes "totalFailed", .num (countFailed r.1))]],
       r.2.2, r.2.1⟩
    else if a = asciiBytes "unload" then
      let u := unloadExtension env st pathV
      ⟨[.obj ([(asciiBytes "type", .str (asciiBytes "unload_result"))] ++ u.1 ++ jfield "path" pathV)],
       u.2.2, u.2.1⟩
    else if a = asciiBytes "unload_all" then
      let r := unloadAllGo env (st.loaded.map Prod.fst) st
      ⟨[.obj [(asciiBytes "type", .str (asciiBytes "unload_all_result")),
              (asciiBytes "results", .arr r.1)]],
       r.2.2, r.2.1⟩
    else unknownAction (some (.str a)) st
  | other => unknownAction other st

/-- The generic error frame the `main` catch-block sends for a rejected
`readMessage` (`native-host.js` lines 481-484); the detail suffix of the
`Invalid JSON: ...` message is not modelled. -/
def errorResponse (msg : JStr) : Json :=
  .obj [(asciiBytes "type", .str (asciiBytes "error")),
        (asciiBytes "error", .str msg)]

/-- The `main` read/dispatch loop (`native-host.js` lines 465-487) on the
remaining input stream, fuelled (any fuel above the frame count is
enough).  A decoded frame is fully handled before the next read (the
resolve path removes its `readable` listener, line 59, so successful
reads chain cleanly); end of input stops the loop.  A rejected read is
caught and answered with exactly one generic `error` frame — but the
reject path never removes its `readable` listener, so that stale
listener keeps consuming bytes from the stream in competition with every
later read, in a way that depends on chunk arrival timing rather than on
the byte sequence alone; the model therefore ends with the error frame
and makes no statement about the stream past a rejected frame. -/
def mainLoop (env : Env) : Nat → HostState → List Nat → List Json × List Effect
  | 0, _, _ => ([], [])
  | fuel + 1, st, input =>
    match readMessage input with
    | .endOfInput => ([], [])
    | .frame v rest =>
      let out := handleMessage env st v
      let cont := mainLoop env fuel out.state rest
      (out.sent ++ cont.1, out.effects ++ cont.2)
    | .invalidJson _ =>
      ([errorResponse (asciiBytes "Invalid JSON")], [])

/-- A whole run of `main` on a finite input stream, from startup. -/
def mainRun (env : Env) (input : List Nat) : List Json × List Effect :=
  mainLoop env (input.length + 1) (initState env) input

/-! ## Witness environments and values -/

/-- An environment in which nothing exists: no config file, no loader
tool, no browser, empty filesystem. -/
def envNone : Env :=
  { platform := asciiBytes "linux", homedir := asciiBytes "/home/u",
    tmpdir := asciiBytes "/tmp", now := 7, envAppData := none,
    existsF := fun _ => false, files := fun _ => none, dirs := fun _ => none,
    execSync := fun _ => none, copyFails := fun _ => false,
    killThrows := fun _ => false }

/-- `envNone` with the `web-ext` loader tool on the `PATH` (and still no
readable files, so any manifest read fails). -/
def envWebExt : Env :=
  { envNone with execSync := fun _ => some (asciiBytes "/usr/local/bin/web-ext\n") }

/-- A `status` request. -/
def statusMsg : Json := .obj [(asciiBytes "action", .str (asciiBytes "status"))]

/-- A `load` request for `/x`. -/
def loadXMsg : Json :=
  .obj [(asciiBytes "action", .str (asciiBytes "load")), (asciiBytes "path", .str (asciiBytes "/x"))]

/-- A JSON value whose serialization is exactly 1 MiB: a string of
1048574 `a` bytes (plus the two quotes). -/
def oversizedValue : Json := .str (List.replicate 1048574 0x61)

/-! ## Theorems

First the platform-JSON layer: `parseJson` inverts `stringifyV`. -/

theorem natBytesF_irrel : ∀ n f f', n < f → n < f' → natBytesF f n = natBytesF f' n := by
  intro n
  induction n using Nat.strong_induction_on with
  | _ n ih =>
    intro f f' hf hf'
    match f, hf, f', hf' with
    | f₀ + 1, _, f₁ + 1, _ =>
      simp only [natBytesF]
      by_cases h10 : n < 10
      · simp [h10]
      · simp only [if_neg h10]
        have hd : n / 10 < n := Nat.div_lt_self (by omega) (by omega)
        rw [ih (n / 10) hd f₀ f₁ (by omega) (by omega)]

/-- The recursion equation of `natBytes`. -/
theorem natBytes_eq (n : Nat) :
    natBytes n = if n < 10 then [digitByte n] else natBytes (n / 10) ++ [digitByte (n % 10)] := by
  by_cases h10 : n < 10
  · simp [natBytes, natBytesF, h10]
  · have hd : n / 10 < n := Nat.div_lt_self (by omega) (by omega)
    have hstep : natBytesF (n + 1) n = natBytesF n (n / 10) ++ [digitByte (n % 10)] := by
      simp only [natBytesF, if_neg h10]
    rw [if_neg h10, natBytes, natBytes, hstep,
      natBytesF_irrel (n / 10) n (n / 10 + 1) (by omega) (by omega)]

/-- The first byte printed for a natural number is a decimal digit. -/
theorem natBytes_head : ∀ n, ∃ c cs, natBytes n = c :: cs ∧ 0x30 ≤ c ∧ c ≤ 0x39 := by
  intro n
  induction n using Nat.strong_induction_on with
  | _ n ih =>
    rw [natBytes_eq]
    by_cases h10 : n < 10
    · exact ⟨digitByte n, [], by simp [h10, digitByte], by simp [digitByte], by simp [digitByte]; omega⟩
    · have hd : n / 10 < n := Nat.div_lt_self (by omega) (by omega)
      obtain ⟨c, cs, hc, h1, h2⟩ := ih (n / 10) hd
      exact ⟨c, cs ++ [digitByte (n % 10)], by simp [h10, hc], h1, h2⟩

/-- Consuming a printed number: the digits fold into the accumulator and
parsing continues on the tail. -/
theorem parseDigits_natBytes :
    ∀ n rest acc, parseDigits (natBytes n ++ rest) acc
      = parseDigits rest (acc * 10 ^ (natBytes n).length + n) := by
  intro n
  induction n using Nat.strong_induction_on with
  | _ n ih =>
    intro rest acc
    conv_lhs => rw [natBytes_eq]
    by_cases h10 : n < 10
    · have hdig : isDigitByte (0x30 + n) = true := by simp [isDigitByte]; omega
      have hlen1 : (natBytes n).length = 1 := by rw [natBytes_eq]; simp [h10]
      simp only [if_pos h10, digitByte, List.cons_append, List.nil_append, parseDigits, hdig,
        if_true, hlen1, pow_one]
      have hsub : 0x30 + n - 0x30 = n := by omega
      rw [hsub]
    · have hd : n / 10 < n := Nat.div_lt_self (by omega) (by omega)
      have hdig : isDigitByte (0x30 + n % 10) = true := by simp [isDigitByte]; omega
      simp only [if_neg h10, List.append_assoc, List.cons_append, List.nil_append]
      rw [ih (n / 10) hd]
      simp only [digitByte, parseDigits, hdig, if_true]
      have hsub : 0x30 + n % 10 - 0x30 = n % 10 := by omega
      have hlen : (natBytes n).length = (natBytes (n / 10)).length + 1 := by
        conv_lhs => rw [natBytes_eq]
        simp [if_neg h10]
      rw [hsub, hlen]
      congr 1
      have hmod := Nat.div_add_mod n 10
      rw [pow_succ]
      ring_nf
      omega

/-- Does the input begin with a decimal digit byte? -/
def startsDigit : List Nat → Bool
  | [] => false
  | c :: _ => isDigitByte c

theorem parseDigits_stop : ∀ l acc, startsDigit l = false → parseDigits l acc = (acc, l) := by
  intro l acc h
  cases l with
  | nil => simp [parseDigits]
  | cons c cs => simp only [startsDigit] at h; simp [parseDigits, h]

theorem hexVal_hexDigitByte (d : Nat) (h : d < 16) : hexVal (hexDigitByte d) = some d := by
  by_cases h10 : d < 10
  · simp only [hexDigitByte, if_pos h10, hexVal]
    rw [if_pos (by simp; omega)]
    simp only [Option.some.injEq]
    omega
  · simp only [hexDigitByte, if_neg h10, hexVal]
    rw [if_neg (by simp; omega), if_pos (by simp; omega)]
    simp only [Option.some.injEq]
    omega

/-- `parseStrBody` inverts the serializer's string-body escaping, up to
the closing quote. -/
theorem parseStrBody_escape :
    ∀ s rest, parseStrBody (escapeStr s ++ (0x22 :: rest)) = some (s, rest) := by
  intro s
  induction s with
  | nil =>
    intro rest
    rw [escapeStr, List.nil_append, parseStrBody.eq_def]
    simp
  | cons b bs ih =>
    intro rest
    simp only [escapeStr, List.append_assoc]
    by_cases hb22 : b = 0x22
    · subst hb22
      rw [escByte, if_pos rfl, List.cons_append, List.cons_append, List.nil_append,
        parseStrBody.eq_def]
      simp [ih]
    · by_cases hb5c : b = 0x5C
      · subst hb5c
        rw [escByte, if_neg (by omega), if_pos rfl, List.cons_append, List.cons_append,
          List.nil_append, parseStrBody.eq_def]
        simp [ih]
      · by_cases hlt : b < 0x20
        · have h1 : hexVal (hexDigitByte (b / 16)) = some (b / 16) :=
            hexVal_hexDigitByte _ (by omega)
          have h2 : hexVal (hexDigitByte (b % 16)) = some (b % 16) :=
            hexVal_hexDigitByte _ (by omega)
          rw [escByte, if_neg hb22, if_neg hb5c, if_pos hlt]
          simp only [List.cons_append, List.nil_append]
          rw [parseStrBody.eq_def]
          have h0 : hexVal 0x30 = some 0 := rfl
          have hv : ((0 * 16 + 0) * 16 + b / 16) * 16 + b % 16 = b := by omega
          simp [h0, h1, h2, hv, hlt, ih]
          omega
        · rw [escByte, if_neg hb22, if_neg hb5c, if_neg hlt]
          simp only [List.cons_append, List.nil_append]
          rw [parseStrBody.eq_def]
          simp [hb22, hb5c, hlt, ih]

/-- Every serialized value begins with a byte that closes neither an
array nor an object. -/
theorem stringifyV_head (v : Json) :
    ∃ c cs, stringifyV v = c :: cs ∧ c ≠ 0x5D ∧ c ≠ 0x7D := by
  cases v with
  | null => exact ⟨0x6E, [0x75, 0x6C, 0x6C], rfl, by omega, by omega⟩
  | bool b =>
    cases b with
    | false => exact ⟨0x66, [0x61, 0x6C, 0x73, 0x65], rfl, by omega, by omega⟩
    | true => exact ⟨0x74, [0x72, 0x75, 0x65], rfl, by omega, by omega⟩
  | num i =>
    by_cases hi : i < 0
    · refine ⟨0x2D, natBytes i.natAbs, ?_, by omega, by omega⟩
      simp [stringifyV, intBytes, hi]
    · obtain ⟨c, cs, hc, hlo, hhi⟩ := natBytes_head i.toNat
      refine ⟨c, cs, ?_, by omega, by omega⟩
      simp [stringifyV, intBytes, hi, hc]
  | str s => exact ⟨0x22, escapeStr s ++ [0x22], rfl, by omega, by omega⟩
  | arr l =>
    cases l with
    | nil => exact ⟨0x5B, [0x5D], rfl, by omega, by omega⟩
    | cons x xs =>
      exact ⟨0x5B, stringifyV x ++ stringifyArrTail xs, rfl, by omega, by omega⟩
  | obj l =>
    cases l with
    | nil => exact ⟨0x7B, [0x7D], rfl, by omega, by omega⟩
    | cons m ms =>
      exact ⟨0x7B, stringifyMember m ++ stringifyObjTail ms, rfl, by omega, by omega⟩

theorem stringifyV_length_pos (v : Json) : 0 < (stringifyV v).length := by
  obtain ⟨c, cs, hc, -, -⟩ := stringifyV_head v
  simp [hc]

theorem stringifyArrTail_length_pos (xs : List Json) : 0 < (stringifyArrTail xs).length := by
  cases xs <;> simp [stringifyArrTail]

theorem stringifyMember_length_pos (m : JStr × Json) : 0 < (stringifyMember m).length := by
  obtain ⟨k, v⟩ := m
  simp [stringifyMember, strLit]

theorem stringifyObjTail_length_pos (ms : List (JStr × Json)) :
    0 < (stringifyObjTail ms).length := by
  cases ms <;> simp [stringifyObjTail]

/-- After a serialized value, a greedy number parse must not continue: the
guard needed for the round trip (trivial except for numbers). -/
def numGuard : Json → List Nat → Prop
  | .num _, rest => startsDigit rest = false
  | _, _ => True

theorem numGuard_of (v : Json) (rest : List Nat) (h : startsDigit rest = false) :
    numGuard v rest := by
  cases v <;> simp [numGuard, h]

theorem startsDigit_arrTail (xs : List Json) (r : List Nat) :
    startsDigit (stringifyArrTail xs ++ r) = false := by
  cases xs <;> simp [stringifyArrTail, startsDigit, isDigitByte]

theorem startsDigit_objTail (ms : List (JStr × Json)) (r : List Nat) :
    startsDigit (stringifyObjTail ms ++ r) = false := by
  cases ms <;> simp [stringifyObjTail, startsDigit, isDigitByte]

/-- The round trip, all four grammar productions at once, by induction on
the parser fuel: parsing a serialization (followed by anything the number
guard allows) returns exactly the value and the trailing bytes. -/
theorem parse_stringify_all : ∀ f,
    (∀ v rest, (stringifyV v).length ≤ f → numGuard v rest →
        parseValue f (stringifyV v ++ rest) = some (v, rest))
  ∧ (∀ xs acc rest, (stringifyArrTail xs).length ≤ f →
        parseArrTail f (stringifyArrTail xs ++ rest) acc = some (.arr (acc.reverse ++ xs), rest))
  ∧ (∀ k v rest, (stringifyMember (k, v)).length ≤ f → numGuard v rest →
        parseMember f (stringifyMember (k, v) ++ rest) = some ((k, v), rest))
  ∧ (∀ ms acc rest, (stringifyObjTail ms).length ≤ f →
        parseObjTail f (stringifyObjTail ms ++ rest) acc = some (.obj (acc.reverse ++ ms), rest)) := by
  intro f
  induction f with
  | zero =>
    refine ⟨fun v rest hlen _ => absurd hlen (by have := stringifyV_length_pos v; omega),
            fun xs acc rest hlen => absurd hlen (by have := stringifyArrTail_length_pos xs; omega),
            fun k v rest hlen _ => absurd hlen (by have := stringifyMember_length_pos (k, v); omega),
            fun ms acc rest hlen => absurd hlen (by have := stringifyObjTail_length_pos ms; omega)⟩
  | succ f ih =>
    obtain ⟨ihV, ihA, ihM, ihO⟩ := ih
    refine ⟨?_, ?_, ?_, ?_⟩
    · -- values
      intro v rest hlen hg
      cases v with
      | null =>
        rw [show stringifyV .null = [0x6E, 0x75, 0x6C, 0x6C] from rfl, parseValue.eq_def]
        simp [expectBytes]
      | bool b =>
        cases b with
        | true =>
          rw [show stringifyV (.bool true) = [0x74, 0x72, 0x75, 0x65] from rfl, parseValue.eq_def]
          simp [expectBytes]
        | false =>
          rw [show stringifyV (.bool false) = [0x66, 0x61, 0x6C, 0x73, 0x65] from rfl,
            parseValue.eq_def]
          simp [expectBytes]
      | num i =>
        have hguard : startsDigit rest = false := hg
        by_cases hi : i < 0
        · obtain ⟨c, cs, hc, hlo, hhi⟩ := natBytes_head i.natAbs
          rw [show stringifyV (.num i) = intBytes i from rfl, intBytes, if_pos hi, hc,
            parseValue.eq_def]
          have hd : isDigitByte c = true := by simp [isDigitByte]; omega
          simp only [List.cons_append]
          simp only [reduceIte, show (0x2D : Nat) ≠ 0x6E by omega, show (0x2D : Nat) ≠ 0x74 by omega]
          norm_num [hd]
          rw [← List.cons_append, ← hc, parseDigits_natBytes, parseDigits_stop _ _ hguard]
          have hz : (0 : Nat) * 10 ^ (natBytes i.natAbs).length + i.natAbs = i.natAbs := by ring
          rw [hz]
          simp only [Option.some.injEq, Prod.mk.injEq, Json.num.injEq]
          refine ⟨?_, trivial⟩
          omega
        · obtain ⟨c, cs, hc, hlo, hhi⟩ := natBytes_head i.toNat
          rw [show stringifyV (.num i) = intBytes i from rfl, intBytes, if_neg hi, hc,
            parseValue.eq_def]
          have hd : isDigitByte c = true := by simp [isDigitByte]; omega
          simp only [List.cons_append]
          rw [if_neg (by omega), if_neg (by omega), if_neg (by omega), if_neg (by omega),
            if_neg (by omega), if_pos hd]
          rw [← List.cons_append, ← hc, parseDigits_natBytes, parseDigits_stop _ _ hguard]
          have hz : (0 : Nat) * 10 ^ (natBytes i.toNat).length + i.toNat = i.toNat := by ring
          rw [hz]
          simp only [Option.some.injEq, Prod.mk.injEq, Json.num.injEq]
          refine ⟨?_, trivial⟩
          omega
      | str s =>
        rw [show stringifyV (.str s) = strLit s from rfl, strLit, parseValue.eq_def]
        simp only [List.cons_append, List.append_assoc, List.singleton_append]
        simp [parseStrBody_escape s rest]
      | arr l =>
        cases l with
        | nil =>
          rw [show stringifyV (.arr []) = [0x5B, 0x5D] from rfl, parseValue.eq_def]
          simp [isDigitByte]
        | cons x xs =>
          rw [show stringifyV (.arr (x :: xs)) = 0x5B :: (stringifyV x ++ stringifyArrTail xs)
              from rfl] at hlen ⊢
          obtain ⟨c, cs, hc, hne1, hne2⟩ := stringifyV_head x
          have hlenx : (stringifyV x).length ≤ f := by
            have := stringifyArrTail_length_pos xs
            simp at hlen; omega
          have hlenT : (stringifyArrTail xs).length ≤ f := by
            have := stringifyV_length_pos x
            simp at hlen; omega
          have hgx : numGuard x (stringifyArrTail xs ++ rest) :=
            numGuard_of _ _ (startsDigit_arrTail xs rest)
          rw [parseValue.eq_def]
          simp only [List.cons_append, List.append_assoc]
          rw [hc]
          simp only [List.cons_append]
          norm_num
          rw [if_neg (show ¬(isDigitByte 0x5B = true) by decide), if_neg hne1]
          rw [show c :: (cs ++ (stringifyArrTail xs ++ rest))
              = stringifyV x ++ (stringifyArrTail xs ++ rest) by rw [hc]; simp]
          rw [ihV x _ hlenx hgx]
          simpa using ihA xs [x] rest hlenT
      | obj l =>
        cases l with
        | nil =>
          rw [show stringifyV (.obj []) = [0x7B, 0x7D] from rfl, parseValue.eq_def]
          simp [isDigitByte]
        | cons m ms =>
          obtain ⟨k, mv⟩ := m
          rw [show stringifyV (.obj ((k, mv) :: ms))
              = 0x7B :: (stringifyMember (k, mv) ++ stringifyObjTail ms) from rfl] at hlen ⊢
          have hlenM : (stringifyMember (k, mv)).length ≤ f := by
            have := stringifyObjTail_length_pos ms
            simp at hlen; omega
          have hlenT : (stringifyObjTail ms).length ≤ f := by
            have := stringifyMember_length_pos (k, mv)
            simp at hlen; omega
          have hgm : numGuard mv (stringifyObjTail ms ++ rest) :=
            numGuard_of _ _ (startsDigit_objTail ms rest)
          rw [parseValue.eq_def]
          rw [show stringifyMember (k, mv) = strLit k ++ (0x3A :: stringifyV mv) from rfl,
            strLit]
          simp only [List.cons_append, List.append_assoc]
          norm_num
          rw [if_neg (show ¬(isDigitByte 0x7B = true) by decide)]
          rw [show (34 : Nat) :: (escapeStr k ++ 34 :: 58 :: (stringifyV mv ++
                (stringifyObjTail ms ++ rest)))
              = stringifyMember (k, mv) ++ (stringifyObjTail ms ++ rest) by
            rw [show stringifyMember (k, mv) = strLit k ++ (0x3A :: stringifyV mv) from rfl,
              strLit]; simp]
          rw [ihM k mv _ hlenM hgm]
          simpa using ihO ms [(k, mv)] rest hlenT
    · -- array tails
      intro xs acc rest hlen
      cases xs with
      | nil =>
        rw [show stringifyArrTail [] = [0x5D] from rfl, parseArrTail.eq_def]
        simp
      | cons x xs' =>
        rw [show stringifyArrTail (x :: xs') = 0x2C :: (stringifyV x ++ stringifyArrTail xs')
            from rfl] at hlen ⊢
        have hlenx : (stringifyV x).length ≤ f := by
          have := stringifyArrTail_length_pos xs'
          simp at hlen; omega
        have hlenT : (stringifyArrTail xs').length ≤ f := by
          have := stringifyV_length_pos x
          simp at hlen; omega
        have hgx : numGuard x (stringifyArrTail xs' ++ rest) :=
          numGuard_of _ _ (startsDigit_arrTail xs' rest)
        rw [parseArrTail.eq_def]
        simp only [List.cons_append, List.append_assoc]
        norm_num
        rw [ihV x _ hlenx hgx]
        simpa using ihA xs' (x :: acc) rest hlenT
    · -- members
      intro k v rest hlen hg
      rw [show stringifyMember (k, v) = strLit k ++ (0x3A :: stringifyV v) from rfl, strLit]
        at hlen ⊢
      have hlenv : (stringifyV v).length ≤ f := by simp at hlen; omega
      rw [parseMember.eq_def]
      simp only [List.cons_append, List.append_assoc]
      norm_num
      rw [parseStrBody_escape k (0x3A :: (stringifyV v ++ rest))]
      simp [ihV v rest hlenv hg]
    · -- object tails
      intro ms acc rest hlen
      cases ms with
      | nil =>
        rw [show stringifyObjTail [] = [0x7D] from rfl, parseObjTail.eq_def]
        simp
      | cons m ms' =>
        obtain ⟨k, mv⟩ := m
        rw [show stringifyObjTail ((k, mv) :: ms')
            = 0x2C :: (stringifyMember (k, mv) ++ stringifyObjTail ms') from rfl] at hlen ⊢
        have hlenM : (stringifyMember (k, mv)).length ≤ f := by
          have := stringifyObjTail_length_pos ms'
          simp at hlen; omega
        have hlenT : (stringifyObjTail ms').length ≤ f := by
          have := stringifyMember_length_pos (k, mv)
          simp at hlen; omega
        have hgm : numGuard mv (stringifyObjTail ms' ++ rest) :=
          numGuard_of _ _ (startsDigit_objTail ms' rest)
        rw [parseObjTail.eq_def]
        simp only [List.cons_append, List.append_assoc]
        norm_num
        rw [ihM k mv _ hlenM hgm]
        simpa using ihO ms' ((k, mv) :: acc) rest hlenT

/-- The platform-JSON round trip: parsing a complete serialized value
returns it. -/
theorem parseJson_stringify (v : Json) : parseJson (stringifyV v) = some v := by
  unfold parseJson
  have h := (parse_stringify_all ((stringifyV v).length + 1)).1 v [] (by omega)
    (numGuard_of v [] rfl)
  rw [List.append_nil] at h
  rw [h]

/-- C3 (amended): for every JSON value whose serialized body is strictly
under 1 MiB, decoding the encoded frame yields the value back with the
stream fully consumed. -/
theorem decode_encode_roundtrip (v : Json) (h : (stringifyV v).length < 1048576) :
    readMessage (sendMessageBytes v) = .frame v [] := by
  have hpos := stringifyV_length_pos v
  rw [sendMessageBytes, writeUInt32LE]
  simp only [List.cons_append, List.nil_append]
  have hlen : (stringifyV v).length % 256 + 256 * ((stringifyV v).length / 256 % 256)
      + 65536 * ((stringifyV v).length / 65536 % 256)
      + 16777216 * ((stringifyV v).length / 16777216 % 256) = (stringifyV v).length := by
    omega
  simp only [readMessage]
  rw [hlen, if_pos ⟨hpos, h⟩, if_pos (le_refl _), List.take_length, parseJson_stringify,
    List.drop_length]

/-- Witness: a small request object round-trips through the framer. -/
theorem decode_encode_roundtrip_witness :
    readMessage (sendMessageBytes (.obj [(asciiBytes "a", .num 1)]))
      = .frame (.obj [(asciiBytes "a", .num 1)]) [] :=
  decode_encode_roundtrip _ (by decide)

theorem escapeStr_replicate_a (n : Nat) :
    escapeStr (List.replicate n 0x61) = List.replicate n 0x61 := by
  induction n with
  | zero => rfl
  | succ n ih =>
    rw [List.replicate_succ]
    show escByte 0x61 ++ escapeStr (List.replicate n 0x61) = _
    rw [ih, show escByte 0x61 = [0x61] from rfl]
    rfl

theorem oversizedValue_length : (stringifyV oversizedValue).length = 1048576 := by
  rw [oversizedValue,
    show stringifyV (.str (List.replicate 1048574 0x61)) = strLit (List.replicate 1048574 0x61)
      from rfl,
    strLit, escapeStr_replicate_a]
  rw [List.length_cons, List.length_append, List.length_replicate, List.length_cons,
    List.length_nil]

/-- C3, counterexample to the claim as stated: a value whose encoded body
is exactly 1 MiB (within the claim's "at most 1 MiB") is not decoded back —
the reader's strict `messageLength < 1024 * 1024` guard never accepts the
frame, so the read resolves only at end of input. -/
theorem roundtrip_fails_at_one_mib :
    (stringifyV oversizedValue).length = 1048576 ∧
    readMessage (sendMessageBytes oversizedValue) = .endOfInput := by
  refine ⟨oversizedValue_length, ?_⟩
  rw [sendMessageBytes, oversizedValue_length,
    show writeUInt32LE 1048576 = [0, 0, 16, 0] from rfl]
  simp only [List.cons_append, List.nil_append]
  simp only [readMessage]
  norm_num

/-- C4 (amended): a 4-byte prefix advertising length `0` or `≥ 1 MiB`
produces no error value at all — the read only ends with the stream, and
the loop then stops without emitting any frame (there is no `FrameEmpty`
or `FrameTooLarge` error path in the code); a complete in-range body that
fails to parse rejects, which the loop surfaces as exactly one generic
`error` frame.  The loop does issue another read afterwards, but the
rejected read's `readable` listener is never removed and keeps consuming
stream bytes, so later frames are not reliably decoded — the run is
modelled (and stated) only up to that error frame. -/
theorem framing_error_handling (env : Env) (fuel : Nat) (st : HostState)
    (b0 b1 b2 b3 : Nat) (rest : List Nat) :
    ((b0 + 256 * b1 + 65536 * b2 + 16777216 * b3 = 0 ∨
      1048576 ≤ b0 + 256 * b1 + 65536 * b2 + 16777216 * b3) →
      readMessage (b0 :: b1 :: b2 :: b3 :: rest) = .endOfInput ∧
      mainLoop env (fuel + 1) st (b0 :: b1 :: b2 :: b3 :: rest) = ([], [])) ∧
    (∀ len, len = b0 + 256 * b1 + 65536 * b2 + 16777216 * b3 → 0 < len → len < 1048576 →
      len ≤ rest.length → parseJson (rest.take len) = none →
      readMessage (b0 :: b1 :: b2 :: b3 :: rest) = .invalidJson (rest.drop len) ∧
      mainLoop env (fuel + 1) st (b0 :: b1 :: b2 :: b3 :: rest)
        = ([errorResponse (asciiBytes "Invalid JSON")], [])) := by
  constructor
  · intro h
    have hr : readMessage (b0 :: b1 :: b2 :: b3 :: rest) = .endOfInput := by
      simp only [readMessage]
      rw [if_neg (by omega)]
    exact ⟨hr, by simp [mainLoop, hr]⟩
  · intro len hlen h0 h1 h2 h3
    subst hlen
    have hr : readMessage (b0 :: b1 :: b2 :: b3 :: rest)
        = .invalidJson (rest.drop (b0 + 256 * b1 + 65536 * b2 + 16777216 * b3)) := by
      simp only [readMessage]
      rw [if_pos ⟨h0, h1⟩, if_pos h2, h3]
    exact ⟨hr, by simp [mainLoop, hr]⟩

/-- Witness: both arms of `framing_error_handling` at concrete frames —
an all-zero prefix ends the loop frameless; a 2-byte body `xy` draws
exactly one error frame. -/
theorem framing_error_handling_witness :
    (readMessage [0, 0, 0, 0] = .endOfInput ∧
     mainLoop envNone 1 (initState envNone) [0, 0, 0, 0] = ([], [])) ∧
    (readMessage [2, 0, 0, 0, 0x78, 0x79] = .invalidJson [] ∧
     mainLoop envNone 1 (initState envNone) [2, 0, 0, 0, 0x78, 0x79]
       = ([errorResponse (asciiBytes "Invalid JSON")], [])) := by
  constructor
  · exact (framing_error_handling envNone 0 (initState envNone) 0 0 0 0 []).1 (Or.inl rfl)
  · have h := (framing_error_handling envNone 0 (initState envNone) 2 0 0 0 [0x78, 0x79]).2
      2 rfl (by decide) (by decide) (by decide) (by rfl)
    simpa using h

/-- C4, counterexample to the claim as stated: a zero-length frame is
followed by a perfectly valid `status` request, yet the run produces no
frames at all — no `FrameEmpty` error response is emitted and the loop
does not continue to the next frame. -/
theorem zero_length_frame_yields_no_error :
    readMessage ([0, 0, 0, 0] ++ sendMessageBytes statusMsg) = .endOfInput ∧
    mainRun envNone ([0, 0, 0, 0] ++ sendMessageBytes statusMsg) = ([], []) := by
  exact ⟨rfl, rfl⟩

/-- Does the message dispatch to the `set_folder` arm? -/
def isSetFolder (message : Json) : Bool :=
  match jget message (asciiBytes "action") with
  | some (.str a) => decide (a = asciiBytes "set_folder")
  | _ => false

theorem handleLoad_sent_length (env : Env) (st : HostState) (pathV : JsVal) :
    (handleLoad env st pathV).sent.length = 1 := by
  unfold handleLoad
  rcases hl : loadExtensionViaRDP env st pathV with ⟨err | res, st', effs⟩
  · simp
  · rcases pathV with _ | j
    · simp
    · cases j with
      | str p =>
        rcases hm : (env.files (pjoin p (asciiBytes "manifest.json"))).bind parseJson with _ | m
        · simp [hm]
        · cases m <;> simp [hm]
      | null => simp
      | bool b => simp
      | num i => simp
      | arr l => simp
      | obj ms => simp

/-- C1 (amended): a handled request produces exactly one response frame —
except `set_folder`, which produces exactly two (`folder_set` and then an
`extensions_list`) — before the next frame is read. -/
theorem handleMessage_response_count (env : Env) (st : HostState) (message : Json) :
    (handleMessage env st message).sent.length = if isSetFolder message then 2 else 1 := by
  unfold handleMessage isSetFolder
  cases hj : jget message (asciiBytes "action") with
  | none => simp [unknownAction]
  | some j =>
    cases j with
    | str a =>
      by_cases h1 : a = asciiBytes "status"
      · simp +decide [h1]
      · by_cases h2 : a = asciiBytes "scan"
        · simp +decide [h1, h2]
        · by_cases h3 : a = asciiBytes "set_folder"
          · simp +decide [h1, h2, h3]
          · by_cases h4 : a = asciiBytes "load"
            · simp +decide [h1, h2, h3, h4, handleLoad_sent_length]
            · by_cases h5 : a = asciiBytes "load_all"
              · simp +decide [h1, h2, h3, h4, h5]
              · by_cases h6 : a = asciiBytes "unload"
                · simp +decide [h1, h2, h3, h4, h5, h6]
                · by_cases h7 : a = asciiBytes "unload_all"
                  · simp +decide [h1, h2, h3, h4, h5, h6, h7]
                  · simp [h1, h2, h3, h4, h5, h6, h7, unknownAction]
    | null => simp [unknownAction]
    | bool b => simp [unknownAction]
    | num i => simp [unknownAction]
    | arr l => simp [unknownAction]
    | obj ms => simp [unknownAction]

/-- C1, counterexample to the claim as stated: a `set_folder` request
writes two response frames before the next frame is read. -/
theorem set_folder_emits_two_frames :
    (handleMessage envNone (initState envNone)
      (.obj [(asciiBytes "action", .str (asciiBytes "set_folder")),
             (asciiBytes "path", .str (asciiBytes "/e"))])).sent.length = 2 := rfl

theorem loadRDP_config (env : Env) (st : HostState) (pathV : JsVal) :
    (loadExtensionViaRDP env st pathV).2.1.config = st.config ∧
    (loadExtensionViaRDP env st pathV).2.2.all (fun e => !e.isConfigWrite) = true := by
  unfold loadExtensionViaRDP
  cases hw : findWebExt env with
  | some wx =>
    rcases pathV with _ | j
    · exact ⟨rfl, rfl⟩
    · cases j <;> exact ⟨rfl, rfl⟩
  | none =>
    cases hf : getFirefoxPath env st.config with
    | none => exact ⟨rfl, rfl⟩
    | some fp =>
      rcases pathV with _ | j
      · exact ⟨rfl, rfl⟩
      · cases j with
        | str p => cases hcf : env.copyFails p <;> simp [hcf, Effect.isConfigWrite]
        | null => exact ⟨rfl, rfl⟩
        | bool b => exact ⟨rfl, rfl⟩
        | num i => exact ⟨rfl, rfl⟩
        | arr l => exact ⟨rfl, rfl⟩
        | obj ms => exact ⟨rfl, rfl⟩

theorem handleLoad_config (env : Env) (st : HostState) (pathV : JsVal) :
    (handleLoad env st pathV).state.config = st.config ∧
    (handleLoad env st pathV).effects.all (fun e => !e.isConfigWrite) = true := by
  have hc := loadRDP_config env st pathV
  unfold handleLoad
  rcases hl : loadExtensionViaRDP env st pathV with ⟨err | res, st', effs⟩ <;> rw [hl] at hc
  · exact hc
  · rcases pathV with _ | j
    · exact hc
    · cases j with
      | str p =>
        rcases hm : (env.files (pjoin p (asciiBytes "manifest.json"))).bind parseJson with _ | m
        · first | exact hc | simpa [hm] using hc
        · cases m <;> first | exact hc | simpa [hm] using hc
      | null => exact hc
      | bool b => exact hc
      | num i => exact hc
      | arr l => exact hc
      | obj ms => exact hc

theorem loadAllGo_config (env : Env) :
    ∀ ds st, (loadAllGo env ds st).2.1.config = st.config ∧
      (loadAllGo env ds st).2.2.all (fun e => !e.isConfigWrite) = true := by
  intro ds
  induction ds with
  | nil => intro st; simp [loadAllGo]
  | cons d ds ih =>
    intro st
    have hc := loadRDP_config env st (some (.str d.path))
    unfold loadAllGo
    rcases hl : loadExtensionViaRDP env st (some (.str d.path)) with ⟨err | res, st', effs⟩ <;>
      rw [hl] at hc
    · refine ⟨((ih st').1).trans hc.1, ?_⟩
      show (effs ++ (loadAllGo env ds st').2.2).all (fun e => !e.isConfigWrite) = true
      rw [List.all_append, hc.2, (ih st').2]
      rfl
    · refine ⟨((ih st').1).trans hc.1, ?_⟩
      show (effs ++ (loadAllGo env ds st').2.2).all (fun e => !e.isConfigWrite) = true
      rw [List.all_append, hc.2, (ih st').2]
      rfl

theorem unloadExt_config (env : Env) (st : HostState) (pathV : JsVal) :
    (unloadExtension env st pathV).2.1.config = st.config ∧
    (unloadExtension env st pathV).2.2.all (fun e => !e.isConfigWrite) = true := by
  unfold unloadExtension
  rcases pathV with _ | j
  · exact ⟨rfl, rfl⟩
  · cases j with
    | str p =>
      cases hg : mapGet st.loaded p with
      | none => simp [hg, Effect.isConfigWrite]
      | some r => cases hp : r.process <;> simp [hg, hp, Effect.isConfigWrite]
    | null => exact ⟨rfl, rfl⟩
    | bool b => exact ⟨rfl, rfl⟩
    | num i => exact ⟨rfl, rfl⟩
    | arr l => exact ⟨rfl, rfl⟩
    | obj ms => exact ⟨rfl, rfl⟩

theorem unloadAllGo_config (env : Env) :
    ∀ ps st, (unloadAllGo env ps st).2.1.config = st.config ∧
      (unloadAllGo env ps st).2.2.all (fun e => !e.isConfigWrite) = true := by
  intro ps
  induction ps with
  | nil => intro st; simp [unloadAllGo]
  | cons p ps ih =>
    intro st
    have hc := unloadExt_config env st (some (.str p))
    unfold unloadAllGo
    refine ⟨((ih ((unloadExtension env st (some (.str p))).2.1)).1).trans hc.1, ?_⟩
    show ((unloadExtension env st (some (.str p))).2.2
        ++ (unloadAllGo env ps ((unloadExtension env st (some (.str p))).2.1)).2.2).all
        (fun e => !e.isConfigWrite) = true
    rw [List.all_append, hc.2, (ih _).2]
    rfl

/-- C8: no request other than `set_folder` mutates the in-memory config,
and only `set_folder` writes the config file after startup. -/
theorem config_only_set_folder (env : Env) (st : HostState) (message : Json)
    (h : isSetFolder message = false) :
    (handleMessage env st message).state.config = st.config ∧
    (handleMessage env st message).effects.all (fun e => !e.isConfigWrite) = true := by
  unfold handleMessage
  unfold isSetFolder at h
  cases hj : jget message (asciiBytes "action") with
  | none => simp [unknownAction]
  | some j =>
    cases j with
    | str a =>
      rw [hj] at h
      simp at h
      by_cases h1 : a = asciiBytes "status"
      · simp +decide [h1]
      · by_cases h2 : a = asciiBytes "scan"
        · simp +decide [h1, h2]
        · by_cases h4 : a = asciiBytes "load"
          · simp +decide [h1, h2, h, h4, handleLoad_config]
          · by_cases h5 : a = asciiBytes "load_all"
            · simp +decide [h1, h2, h, h4, h5, loadAllGo_config]
            · by_cases h6 : a = asciiBytes "unload"
              · simp +decide [h1, h2, h, h4, h5, h6, unloadExt_config]
              · by_cases h7 : a = asciiBytes "unload_all"
                · simp +decide [h1, h2, h, h4, h5, h6, h7, unloadAllGo_config]
                · simp [h1, h2, h, h4, h5, h6, h7, unknownAction]
    | null => simp [unknownAction]
    | bool b => simp [unknownAction]
    | num i => simp [unknownAction]
    | arr l => simp [unknownAction]
    | obj ms => simp [unknownAction]

/-- Witness: a `status` request leaves the config untouched and writes no
config file. -/
theorem config_only_set_folder_witness :
    (handleMessage envNone (initState envNone) statusMsg).state.config
        = (initState envNone).config ∧
    (handleMessage envNone (initState envNone) statusMsg).effects.all
        (fun e => !e.isConfigWrite) = true :=
  config_only_set_folder envNone (initState envNone) statusMsg (by rfl)

/-- The state holding the stale `/x` record: a `load` against `envWebExt`
spawned the loader and inserted the record, then failed on the manifest
read. -/
def stWithX : HostState := (handleMessage envWebExt (initState envWebExt) loadXMsg).state

theorem mapGet_eq_none_of_not_mem :
    ∀ (l : List (JStr × LoadedRec)) (p : JStr), p ∉ l.map Prod.fst → mapGet l p = none := by
  intro l
  induction l with
  | nil => intro p _; rfl
  | cons kv t ih =>
    intro p hp
    obtain ⟨k, v⟩ := kv
    simp only [List.map_cons, List.mem_cons, not_or] at hp
    simp [mapGet, show ¬k = p from fun h => hp.1 h.symm, ih p hp.2]

theorem mapGet_mapDelete_self :
    ∀ (l : List (JStr × LoadedRec)) (p : JStr), (l.map Prod.fst).Nodup →
      mapGet (mapDelete l p) p = none := by
  intro l
  induction l with
  | nil => intro p _; rfl
  | cons kv t ih =>
    intro p hnd
    obtain ⟨k, v⟩ := kv
    simp only [List.map_cons, List.nodup_cons] at hnd
    by_cases hk : k = p
    · subst hk
      simp [mapDelete, mapGet_eq_none_of_not_mem t k hnd.1]
    · simp [mapDelete, hk, mapGet, ih p hnd.2]

/-- C5: unloading a present record succeeds, removes it and best-effort
terminates the recorded handle; unloading an absent record returns
`success:false` with the not-loaded message without touching the state or
raising; a second unload right after a first therefore fails; and neither
the result nor the state depend on whether `kill` throws (the `catch`
swallows it). -/
theorem unload_semantics (env env' : Env) (st : HostState) (p : JStr) :
    (∀ r, mapGet st.loaded p = some r →
      (unloadExtension env st (some (.str p))).1 = [(asciiBytes "success", .bool true)] ∧
      (unloadExtension env st (some (.str p))).2.1
        = { st with loaded := mapDelete st.loaded p } ∧
      (∀ pid, r.process = some pid →
        (unloadExtension env st (some (.str p))).2.2
          = [.killAttempt pid (!env.killThrows pid)])) ∧
    (mapGet st.loaded p = none →
      (unloadExtension env st (some (.str p))).1
        = [(asciiBytes "success", .bool false),
           (asciiBytes "error", .str (asciiBytes "Extension not found in loaded list"))] ∧
      (unloadExtension env st (some (.str p))).2.1 = st ∧
      (unloadExtension env st (some (.str p))).2.2 = []) ∧
    ((st.loaded.map Prod.fst).Nodup → mapGet st.loaded p ≠ none →
      (unloadExtension env ((unloadExtension env st (some (.str p))).2.1)
          (some (.str p))).1
        = [(asciiBytes "success", .bool false),
           (asciiBytes "error", .str (asciiBytes "Extension not found in loaded list"))]) ∧
    ((unloadExtension env st (some (.str p))).1 = (unloadExtension env' st (some (.str p))).1 ∧
     (unloadExtension env st (some (.str p))).2.1
       = (unloadExtension env' st (some (.str p))).2.1) := by
  refine ⟨?_, ?_, ?_, ?_⟩
  · intro r hr
    refine ⟨?_, ?_, ?_⟩
    · unfold unloadExtension; simp [hr]
    · unfold unloadExtension; simp [hr]
    · intro pid hpid
      unfold unloadExtension
      simp [hr, hpid]
  · intro hn
    refine ⟨?_, ?_, ?_⟩ <;> (unfold unloadExtension; simp [hn])
  · intro hnd hm
    obtain ⟨r, hr⟩ := Option.ne_none_iff_exists'.mp hm
    have hstate : (unloadExtension env st (some (.str p))).2.1
        = { st with loaded := mapDelete st.loaded p } := by
      unfold unloadExtension; simp [hr]
    rw [hstate]
    have hdel : mapGet (mapDelete st.loaded p) p = none := mapGet_mapDelete_self _ _ hnd
    unfold unloadExtension
    simp [hdel]
  · constructor <;> (unfold unloadExtension; cases hg : mapGet st.loaded p <;> simp [hg])

/-- Witness: with the `/x` record present, the first unload succeeds and
the immediate second unload reports not-loaded. -/
theorem unload_semantics_witness :
    (unloadExtension envWebExt stWithX (some (.str (asciiBytes "/x")))).1
      = [(asciiBytes "success", .bool true)] ∧
    (unloadExtension envWebExt
        ((unloadExtension envWebExt stWithX (some (.str (asciiBytes "/x")))).2.1)
        (some (.str (asciiBytes "/x")))).1
      = [(asciiBytes "success", .bool false),
         (asciiBytes "error", .str (asciiBytes "Extension not found in loaded list"))] := by
  constructor
  · exact ((unload_semantics envWebExt envNone stWithX (asciiBytes "/x")).1
      ⟨some 0, asciiBytes "web-ext"⟩ (by rfl)).1
  · exact (unload_semantics envWebExt envNone stWithX (asciiBytes "/x")).2.2.1
      (by decide) (by decide)

/-- C2, counterexample to the claim as stated: with the loader tool
present but `/x/manifest.json` unreadable, the `load` request is answered
with `success:false`, yet the `LoadedExtensionRecord` inserted by the
ExternalLoader strategy remains in the registry. -/
theorem load_failure_leaves_record :
    (handleMessage envWebExt (initState envWebExt) loadXMsg).sent
      = [.obj [(asciiBytes "type", .str (asciiBytes "load_result")),
               (asciiBytes "success", .bool false),
               (asciiBytes "error", .str (asciiBytes "manifest read failed")),
               (asciiBytes "path", .str (asciiBytes "/x"))]] ∧
    (handleMessage envWebExt (initState envWebExt) loadXMsg).state.loaded
      = [(asciiBytes "/x", ⟨some 0, asciiBytes "web-ext"⟩)] :=
  ⟨rfl, rfl⟩

theorem loadRDP_error_state (env : Env) (st : HostState) (pathV : JsVal) :
    ∀ e st' effs, loadExtensionViaRDP env st pathV = (.error e, st', effs) → st' = st := by
  intro e st' effs herr
  unfold loadExtensionViaRDP at herr
  cases hw : findWebExt env <;> rw [hw] at herr
  case none =>
    cases hf : getFirefoxPath env st.config <;> rw [hf] at herr
    case none => simp at herr; exact herr.2.1.symm
    case some fp =>
      rcases pathV with _ | j
      · simp at herr; exact herr.2.1.symm
      · cases j with
        | str p =>
          cases hcf : env.copyFails p <;> simp [hcf] at herr
          exact herr.2.1.symm
        | null => simp at herr; exact herr.2.1.symm
        | bool b => simp at herr; exact herr.2.1.symm
        | num i => simp at herr; exact herr.2.1.symm
        | arr l => simp at herr; exact herr.2.1.symm
        | obj ms => simp at herr; exact herr.2.1.symm
  case some wx =>
    rcases pathV with _ | j
    · simp at herr; exact herr.2.1.symm
    · cases j with
      | str p => simp at herr
      | null => simp at herr; exact herr.2.1.symm
      | bool b => simp at herr; exact herr.2.1.symm
      | num i => simp at herr; exact herr.2.1.symm
      | arr l => simp at herr; exact herr.2.1.symm
      | obj ms => simp at herr; exact herr.2.1.symm

/-- C2 (amended): a failure raised inside `loadExtensionViaRDP` itself
(no loader tool and no browser, an invalid path argument, a preparation
failure) produces a `success:false` response and leaves the registry
unchanged; but when the ExternalLoader strategy already succeeded and the
subsequent manifest read or parse fails, the response is `success:false`
while the record inserted for `p` stays in the registry. -/
theorem load_registry_on_failure (env : Env) (st : HostState) (pathV : JsVal) :
    (∀ e st' effs, loadExtensionViaRDP env st pathV = (.error e, st', effs) →
      st' = st ∧
      (handleLoad env st pathV).state.loaded = st.loaded ∧
      ∀ r ∈ (handleLoad env st pathV).sent,
        jget r (asciiBytes "success") = some (.bool false)) ∧
    (∀ p wx, pathV = some (.str p) → findWebExt env = some wx →
      (env.files (pjoin p (asciiBytes "manifest.json"))).bind parseJson = none →
      (∀ r ∈ (handleLoad env st pathV).sent,
        jget r (asciiBytes "success") = some (.bool false)) ∧
      (handleLoad env st pathV).state.loaded
        = mapSet st.loaded p ⟨some st.nextPid, asciiBytes "web-ext"⟩) := by
  constructor
  · intro e st' effs herr
    have hst : st' = st := loadRDP_error_state env st pathV e st' effs herr
    subst hst
    refine ⟨rfl, ?_, ?_⟩
    · unfold handleLoad
      rw [herr]
    · unfold handleLoad
      rw [herr]
      intro r hr
      simp at hr
      subst hr
      rcases pathV with _ | j <;> simp +decide [jget, lookupLast, jfield]
  · intro p wx hp hw hm
    subst hp
    have hload : loadExtensionViaRDP env st (some (.str p))
        = (.ok [(asciiBytes "success", .bool true),
                (asciiBytes "method", .str (asciiBytes "web-ext"))],
           ⟨st.config, mapSet st.loaded p ⟨some st.nextPid, asciiBytes "web-ext"⟩,
             st.nextPid + 1⟩,
           [.spawned wx [asciiBytes "run", asciiBytes "--source-dir", p,
                         asciiBytes "--no-reload", asciiBytes "--keep-profile-changes"]
             st.nextPid]) := by
      unfold loadExtensionViaRDP
      rw [hw]
    constructor
    · intro r hr
      unfold handleLoad at hr
      rw [hload] at hr
      simp [hm] at hr
      subst hr
      simp +decide [jget, lookupLast]
    · unfold handleLoad
      rw [hload]
      simp [hm]

/-- Witness: both arms of `load_registry_on_failure` — against the empty
environment the load fails with the registry untouched; against
`envWebExt` the record for `/x` persists under a failure response. -/
theorem load_registry_on_failure_witness :
    ((handleLoad envNone (initState envNone) (some (.str (asciiBytes "/x")))).state.loaded
        = (initState envNone).loaded ∧
     ∀ r ∈ (handleLoad envNone (initState envNone) (some (.str (asciiBytes "/x")))).sent,
        jget r (asciiBytes "success") = some (.bool false)) ∧
    ((∀ r ∈ (handleLoad envWebExt (initState envWebExt)
          (some (.str (asciiBytes "/x")))).sent,
        jget r (asciiBytes "success") = some (.bool false)) ∧
     (handleLoad envWebExt (initState envWebExt)
          (some (.str (asciiBytes "/x")))).state.loaded
        = mapSet (initState envWebExt).loaded (asciiBytes "/x")
            ⟨some (initState envWebExt).nextPid, asciiBytes "web-ext"⟩) := by
  constructor
  · have h := ((load_registry_on_failure envNone (initState envNone)
        (some (.str (asciiBytes "/x")))).1
      (asciiBytes "Firefox not found") (initState envNone) [] (by rfl))
    exact ⟨h.2.1, h.2.2⟩
  · exact (load_registry_on_failure envWebExt (initState envWebExt)
        (some (.str (asciiBytes "/x")))).2
      (asciiBytes "/x") (asciiBytes "/usr/local/bin/web-ext") rfl (by rfl) (by rfl)

theorem loadAllGo_length (env : Env) :
    ∀ ds st, ((loadAllGo env ds st).1).length = ds.length := by
  intro ds
  induction ds with
  | nil => intro st; rfl
  | cons d ds ih =>
    intro st
    unfold loadAllGo
    rcases hl : loadExtensionViaRDP env st (some (.str d.path)) with ⟨err | res, st', effs⟩ <;>
      simp [ih]

theorem unloadAllGo_length (env : Env) :
    ∀ ps st, ((unloadAllGo env ps st).1).length = ps.length := by
  intro ps
  induction ps with
  | nil => intro st; rfl
  | cons p ps ih =>
    intro st
    unfold unloadAllGo
    simp [ih]

theorem countSuccess_add_countFailed (results : List Json) :
    countSuccess results + countFailed results = results.length := by
  induction results with
  | nil => rfl
  | cons r rs ih =>
    cases ht : truthyV (jget r (asciiBytes "success")) <;>
      simp [countSuccess, countFailed, List.filter_cons, ht] at ih ⊢ <;>
      omega

/-- C6 (amended): `load_all` answers with one result entry per freshly
scanned candidate — a single item's failure never shortens the list — and
reports `totalLoaded`/`totalFailed` counts that partition the entries;
`unload_all` answers with one entry per current registry key but returns
only the detail list, without aggregate counts. -/
theorem bulk_operations (env : Env) (st : HostState) (message : Json) :
    (jget message (asciiBytes "action") = some (.str (asciiBytes "load_all")) →
      ∃ results : List Json,
        (handleMessage env st message).sent
          = [.obj [(asciiBytes "type", .str (asciiBytes "load_all_result")),
                   (asciiBytes "results", .arr results),
                   (asciiBytes "totalLoaded", .num (countSuccess results)),
                   (asciiBytes "totalFailed", .num (countFailed results))]] ∧
        results.length = (scanExtensionsFolder env st.config).length ∧
        countSuccess results + countFailed results = results.length) ∧
    (jget message (asciiBytes "action") = some (.str (asciiBytes "unload_all")) →
      ∃ results : List Json,
        (handleMessage env st message).sent
          = [.obj [(asciiBytes "type", .str (asciiBytes "unload_all_result")),
                   (asciiBytes "results", .arr results)]] ∧
        results.length = st.loaded.length) := by
  constructor
  · intro hj
    refine ⟨(loadAllGo env (scanExtensionsFolder env st.config) st).1, ?_, ?_,
      countSuccess_add_countFailed _⟩
    · unfold handleMessage
      rw [hj]
      simp +decide
    · rw [loadAllGo_length]
  · intro hj
    refine ⟨(unloadAllGo env (st.loaded.map Prod.fst) st).1, ?_, ?_⟩
    · unfold handleMessage
      rw [hj]
      simp +decide
    · rw [unloadAllGo_length, List.length_map]

/-- Witness: both arms of `bulk_operations` at concrete requests against
the empty environment and the one-record state. -/
theorem bulk_operations_witness :
    (∃ results : List Json,
      (handleMessage envNone (initState envNone)
          (.obj [(asciiBytes "action", .str (asciiBytes "load_all"))])).sent
        = [.obj [(asciiBytes "type", .str (asciiBytes "load_all_result")),
                 (asciiBytes "results", .arr results),
                 (asciiBytes "totalLoaded", .num (countSuccess results)),
                 (asciiBytes "totalFailed", .num (countFailed results))]] ∧
      results.length
        = (scanExtensionsFolder envNone (initState envNone).config).length ∧
      countSuccess results + countFailed results = results.length) ∧
    (∃ results : List Json,
      (handleMessage envWebExt stWithX
          (.obj [(asciiBytes "action", .str (asciiBytes "unload_all"))])).sent
        = [.obj [(asciiBytes "type", .str (asciiBytes "unload_all_result")),
                 (asciiBytes "results", .arr results)]] ∧
      results.length = stWithX.loaded.length) :=
  ⟨(bulk_operations envNone (initState envNone)
      (.obj [(asciiBytes "action", .str (asciiBytes "load_all"))])).1 rfl,
   (bulk_operations envWebExt stWithX
      (.obj [(asciiBytes "action", .str (asciiBytes "unload_all"))])).2 rfl⟩

/-- C6, counterexample to the claim as stated: the `unload_all` response
contains only the detail list — the `totalLoaded`/`totalFailed` counts the
claim promises for both bulk operations are absent. -/
theorem unload_all_lacks_counts :
    (handleMessage envWebExt stWithX
        (.obj [(asciiBytes "action", .str (asciiBytes "unload_all"))])).sent
      = [.obj [(asciiBytes "type", .str (asciiBytes "unload_all_result")),
               (asciiBytes "results",
                .arr [.obj [(asciiBytes "path", .str (asciiBytes "/x")),
                            (asciiBytes "success", .bool true)]])]] ∧
    jget (.obj [(asciiBytes "type", .str (asciiBytes "unload_all_result")),
                (asciiBytes "results",
                 .arr [.obj [(asciiBytes "path", .str (asciiBytes "/x")),
                             (asciiBytes "success", .bool true)]])])
        (asciiBytes "totalLoaded") = none ∧
    jget (.obj [(asciiBytes "type", .str (asciiBytes "unload_all_result")),
                (asciiBytes "results",
                 .arr [.obj [(asciiBytes "path", .str (asciiBytes "/x")),
                             (asciiBytes "success", .bool true)]])])
        (asciiBytes "totalFailed") = none :=
  ⟨rfl, rfl, rfl⟩

/-- Does a directory entry's manifest get through the scanner's inner
`try`: the file's JSON parses, and to something whose property access
does not throw (i.e. not JSON `null`)? -/
def manifestUsable : Option Json → Bool
  | some .null => false
  | some _ => true
  | none => false

theorem scanEntries_length (env : Env) (f : JStr) :
    ∀ es : List (JStr × Bool),
      (scanEntries env f es).length
        = (es.filter (fun e => e.2 &&
            (env.existsF (pjoin (pjoin f e.1) (asciiBytes "manifest.json")) &&
             manifestUsable ((env.files (pjoin (pjoin f e.1)
                (asciiBytes "manifest.json"))).bind parseJson)))).length := by
  intro es
  induction es with
  | nil => rfl
  | cons e es ih =>
    obtain ⟨nm, isDir⟩ := e
    cases isDir with
    | false => simpa [scanEntries, List.filter_cons] using ih
    | true =>
      cases hex : env.existsF (pjoin (pjoin f nm) (asciiBytes "manifest.json")) with
      | false => simpa [scanEntries, List.filter_cons, hex] using ih
      | true =>
        cases hp : (env.files (pjoin (pjoin f nm) (asciiBytes "manifest.json"))).bind parseJson
          with
        | none => simpa [scanEntries, List.filter_cons, hex, hp, manifestUsable] using ih
        | some m =>
          cases m <;>
            simpa [scanEntries, List.filter_cons, hex, hp, manifestUsable] using ih

/-- C7 (amended): scanning an empty-string or non-existent folder yields
the empty list and no error; scanning an existing folder returns one
descriptor for exactly those immediate subdirectory entries whose
`manifest.json` exists and parses as JSON to a non-`null` value — an
unreadable or unparsable manifest skips only that entry, and so does a
manifest whose JSON is `null`, whose `manifest.name` access throws inside
the same `try`. -/
theorem scan_semantics (env : Env) (cfg : Config) :
    (cfg.extensionFolder = some (.str []) → scanExtensionsFolder env cfg = []) ∧
    (∀ f, cfg.extensionFolder = some (.str f) → env.existsF f = false →
      scanExtensionsFolder env cfg = []) ∧
    (∀ f entries, cfg.extensionFolder = some (.str f) → f ≠ [] → env.existsF f = true →
      env.dirs f = some entries →
      (scanExtensionsFolder env cfg).length
        = (entries.filter (fun e => e.2 &&
            (env.existsF (pjoin (pjoin f e.1) (asciiBytes "manifest.json")) &&
             manifestUsable ((env.files (pjoin (pjoin f e.1)
                (asciiBytes "manifest.json"))).bind parseJson)))).length) := by
  refine ⟨?_, ?_, ?_⟩
  · intro h
    unfold scanExtensionsFolder
    rw [h]
    simp
  · intro f h hex
    unfold scanExtensionsFolder
    rw [h]
    simp [hex]
  · intro f entries h hne hex hdirs
    unfold scanExtensionsFolder
    rw [h]
    have hemp : f.isEmpty = false := by
      cases f with
      | nil => exact absurd rfl hne
      | cons a as => rfl
    simp [hemp, hex, hdirs, scanEntries_length]

/-- A three-entry extensions folder: `a` with a valid (non-`null`)
manifest, `b` with an unreadable one, `c` not a directory. -/
def envScan : Env :=
  { envNone with
    existsF := fun p => decide (p = asciiBytes "/ext")
      || decide (p = asciiBytes "/ext/a/manifest.json")
      || decide (p = asciiBytes "/ext/b/manifest.json"),
    files := fun p =>
      if p = asciiBytes "/ext/a/manifest.json" then some (asciiBytes "1") else none,
    dirs := fun p =>
      if p = asciiBytes "/ext" then
        some [(asciiBytes "a", true), (asciiBytes "b", true), (asciiBytes "c", false)]
      else none }

/-- The configuration pointing at `/ext`. -/
def cfgScan : Config := { configDefaults with extensionFolder := some (.str (asciiBytes "/ext")) }

/-- Witness: over `/ext` the scan returns exactly the one entry whose
manifest parses to a usable value. -/
theorem scan_semantics_witness :
    (scanExtensionsFolder envScan cfgScan).length
      = ([(asciiBytes "a", true), (asciiBytes "b", true),
          (asciiBytes "c", false)].filter (fun e => e.2 &&
            (envScan.existsF (pjoin (pjoin (asciiBytes "/ext") e.1) (asciiBytes "manifest.json")) &&
             manifestUsable ((envScan.files (pjoin (pjoin (asciiBytes "/ext") e.1)
                (asciiBytes "manifest.json"))).bind parseJson)))).length ∧
    (scanExtensionsFolder envScan cfgScan).length = 1 :=
  ⟨(scan_semantics envScan cfgScan).2.2 (asciiBytes "/ext")
      [(asciiBytes "a", true), (asciiBytes "b", true), (asciiBytes "c", false)]
      rfl (by decide) (by rfl) (by rfl),
   rfl⟩

/-- A one-entry extensions folder whose single manifest is the JSON text
`null`. -/
def envNullManifest : Env :=
  { envNone with
    existsF := fun p => decide (p = asciiBytes "/ext")
      || decide (p = asciiBytes "/ext/a/manifest.json"),
    files := fun p =>
      if p = asciiBytes "/ext/a/manifest.json" then some (asciiBytes "null") else none,
    dirs := fun p =>
      if p = asciiBytes "/ext" then some [(asciiBytes "a", true)] else none }

/-- C7, counterexample to the claim as stated: `/ext` has exactly one
subdirectory and its manifest file exists and parses as JSON (to `null`),
so the claim demands one descriptor — but the scan returns none: the
`manifest.name` access throws on `null` inside the inner `try` and the
entry is skipped. -/
theorem null_manifest_yields_no_descriptor :
    envNullManifest.existsF (asciiBytes "/ext/a/manifest.json") = true ∧
    (envNullManifest.files (asciiBytes "/ext/a/manifest.json")).bind parseJson
      = some .null ∧
    scanExtensionsFolder envNullManifest cfgScan = [] :=
  ⟨rfl, rfl, rfl⟩

/-- C9: with no config file present at startup, the first `status`
response reports the default empty `extensionFolder` and `loadedCount`
zero. -/
theorem first_status_defaults (env : Env)
    (h : env.existsF (configFilePath env) = false) :
    (handleMessage env (initState env) statusMsg).sent
      = [statusResponse env (initState env)] ∧
    jget (statusResponse env (initState env)) (asciiBytes "extensionFolder")
      = some (.str []) ∧
    jget (statusResponse env (initState env)) (asciiBytes "loadedCount")
      = some (.num 0) := by
  have hinit : initState env = ⟨configDefaults, [], 0⟩ := by
    unfold initState loadConfig
    simp [h]
  refine ⟨rfl, ?_, ?_⟩
  · rw [hinit]
    unfold statusResponse jget
    simp +decide [jfield, configDefaults, lookupLast]
  · rw [hinit]
    unfold statusResponse jget
    simp +decide [jfield, configDefaults, lookupLast]

/-- Witness: the defaults against the empty environment. -/
theorem first_status_defaults_witness :
    (handleMessage envNone (initState envNone) statusMsg).sent
      = [statusResponse envNone (initState envNone)] ∧
    jget (statusResponse envNone (initState envNone)) (asciiBytes "extensionFolder")
      = some (.str []) ∧
    jget (statusResponse envNone (initState envNone)) (asciiBytes "loadedCount")
      = some (.num 0) :=
  first_status_defaults envNone (by rfl)

/-- Every record in the registry was created by the ExternalLoader
strategy. -/
def regAllWebExt (st : HostState) : Prop :=
  ∀ pr ∈ st.loaded, pr.2.method = asciiBytes "web-ext"

theorem mapSet_preserves_all {P : JStr × LoadedRec → Prop} :
    ∀ (l : List (JStr × LoadedRec)) (k : JStr) (v : LoadedRec),
      (∀ pr ∈ l, P pr) → P (k, v) → ∀ pr ∈ mapSet l k v, P pr := by
  intro l
  induction l with
  | nil => intro k v _ hkv pr hpr; simp [mapSet] at hpr; subst hpr; exact hkv
  | cons kv t ih =>
    intro k v hl hkv pr hpr
    obtain ⟨k', v'⟩ := kv
    by_cases hk : k' = k
    · simp [mapSet, hk] at hpr
      rcases hpr with hpr | hpr
      · subst hpr; exact hkv
      · exact hl pr (List.mem_cons_of_mem _ hpr)
    · simp only [mapSet, if_neg hk] at hpr
      rcases List.mem_cons.mp hpr with hpr | hpr
      · subst hpr; exact hl _ (List.mem_cons_self _ _)
      · exact ih k v (fun q hq => hl q (List.mem_cons_of_mem _ hq)) hkv pr hpr

theorem mapDelete_preserves_all {P : JStr × LoadedRec → Prop} :
    ∀ (l : List (JStr × LoadedRec)) (k : JStr),
      (∀ pr ∈ l, P pr) → ∀ pr ∈ mapDelete l k, P pr := by
  intro l
  induction l with
  | nil => intro k _ pr hpr; simp [mapDelete] at hpr
  | cons kv t ih =>
    intro k hl pr hpr
    obtain ⟨k', v'⟩ := kv
    by_cases hk : k' = k
    · simp only [mapDelete, if_pos hk] at hpr
      exact hl pr (List.mem_cons_of_mem _ hpr)
    · simp only [mapDelete, if_neg hk] at hpr
      rcases List.mem_cons.mp hpr with hpr | hpr
      · subst hpr; exact hl _ (List.mem_cons_self _ _)
      · exact ih k (fun q hq => hl q (List.mem_cons_of_mem _ hq)) pr hpr

theorem loadRDP_reg (env : Env) (st : HostState) (pathV : JsVal)
    (h : regAllWebExt st) : regAllWebExt ((loadExtensionViaRDP env st pathV).2.1) := by
  unfold loadExtensionViaRDP
  cases hw : findWebExt env with
  | some wx =>
    rcases pathV with _ | j
    · exact h
    · cases j with
      | str p =>
        intro pr hpr
        exact mapSet_preserves_all st.loaded p ⟨some st.nextPid, asciiBytes "web-ext"⟩
          h rfl pr hpr
      | null => exact h
      | bool b => exact h
      | num i => exact h
      | arr l => exact h
      | obj ms => exact h
  | none =>
    cases hf : getFirefoxPath env st.config with
    | none => exact h
    | some fp =>
      rcases pathV with _ | j
      · exact h
      · cases j with
        | str p =>
          cases hcf : env.copyFails p <;> simp only [hcf, Bool.false_eq_true, if_false,
            if_true, reduceIte] <;> exact h
        | null => exact h
        | bool b => exact h
        | num i => exact h
        | arr l => exact h
        | obj ms => exact h

theorem loadRDP_loaded_noWebExt (env : Env) (st : HostState) (pathV : JsVal)
    (h : findWebExt env = none) : (loadExtensionViaRDP env st pathV).2.1 = st := by
  unfold loadExtensionViaRDP
  rw [h]
  cases hf : getFirefoxPath env st.config with
  | none => rfl
  | some fp =>
    rcases pathV with _ | j
    · rfl
    · cases j with
      | str p => cases hcf : env.copyFails p <;> simp [hcf]
      | null => rfl
      | bool b => rfl
      | num i => rfl
      | arr l => rfl
      | obj ms => rfl

theorem handleLoad_state (env : Env) (st : HostState) (pathV : JsVal) :
    (handleLoad env st pathV).state = (loadExtensionViaRDP env st pathV).2.1 := by
  unfold handleLoad
  rcases hl : loadExtensionViaRDP env st pathV with ⟨err | res, st', effs⟩
  · rfl
  · rcases pathV with _ | j
    · rfl
    · cases j with
      | str p =>
        rcases hm : (env.files (pjoin p (asciiBytes "manifest.json"))).bind parseJson with _ | m
        · first | rfl | simp [hm]
        · cases m <;> first | rfl | simp [hm]
      | null => rfl
      | bool b => rfl
      | num i => rfl
      | arr l => rfl
      | obj ms => rfl

theorem unloadExt_reg (env : Env) (st : HostState) (pathV : JsVal)
    (h : regAllWebExt st) : regAllWebExt ((unloadExtension env st pathV).2.1) := by
  unfold unloadExtension
  rcases pathV with _ | j
  · exact h
  · cases j with
    | str p =>
      cases hg : mapGet st.loaded p with
      | none => simp [hg]; exact h
      | some r =>
        simp [hg]
        intro pr hpr
        exact mapDelete_preserves_all st.loaded p h pr hpr
    | null => exact h
    | bool b => exact h
    | num i => exact h
    | arr l => exact h
    | obj ms => exact h

theorem loadAllGo_reg (env : Env) :
    ∀ ds st, regAllWebExt st → regAllWebExt ((loadAllGo env ds st).2.1) := by
  intro ds
  induction ds with
  | nil => intro st h; exact h
  | cons d ds ih =>
    intro st h
    unfold loadAllGo
    have hstep := loadRDP_reg env st (some (.str d.path)) h
    rcases hl : loadExtensionViaRDP env st (some (.str d.path)) with ⟨err | res, st', effs⟩ <;>
      rw [hl] at hstep <;> exact ih st' hstep

theorem unloadAllGo_reg (env : Env) :
    ∀ ps st, regAllWebExt st → regAllWebExt ((unloadAllGo env ps st).2.1) := by
  intro ps
  induction ps with
  | nil => intro st h; exact h
  | cons p ps ih =>
    intro st h
    exact ih _ (unloadExt_reg env st (some (.str p)) h)

/-- C10: a load taken over the ProfilePreparation fallback (no loader
tool) inserts nothing into the registry, so the loaded count a subsequent
`status` reports is unchanged; and every record ever present in the
registry carries the ExternalLoader method `web-ext`, an invariant every
handled request preserves. -/
theorem registry_only_external_loader (env : Env) (st : HostState) (message : Json)
    (pathV : JsVal) :
    (findWebExt env = none →
      (handleLoad env st pathV).state.loaded = st.loaded ∧
      (handleLoad env st pathV).state.loaded.length = st.loaded.length) ∧
    (regAllWebExt st → regAllWebExt (handleMessage env st message).state) := by
  constructor
  · intro hw
    have h1 : (handleLoad env st pathV).state = st := by
      rw [handleLoad_state, loadRDP_loaded_noWebExt env st pathV hw]
    rw [h1]
    exact ⟨rfl, rfl⟩
  · intro hreg
    unfold handleMessage
    cases hj : jget message (asciiBytes "action") with
    | none => exact hreg
    | some j =>
      cases j with
      | str a =>
        by_cases h1 : a = asciiBytes "status"
        · simp only [h1, reduceIte]; exact hreg
        · by_cases h2 : a = asciiBytes "scan"
          · simp +decide [h1, h2]; exact hreg
          · by_cases h3 : a = asciiBytes "set_folder"
            · simp +decide [h1, h2, h3]; exact hreg
            · by_cases h4 : a = asciiBytes "load"
              · simp +decide [h1, h2, h3, h4]
                rw [show (handleLoad env st (jget message (asciiBytes "path"))).state
                    = (loadExtensionViaRDP env st (jget message (asciiBytes "path"))).2.1
                  from handleLoad_state env st _]
                exact loadRDP_reg env st _ hreg
              · by_cases h5 : a = asciiBytes "load_all"
                · simp +decide [h1, h2, h3, h4, h5]
                  exact loadAllGo_reg env _ st hreg
                · by_cases h6 : a = asciiBytes "unload"
                  · simp +decide [h1, h2, h3, h4, h5, h6]
                    exact unloadExt_reg env st _ hreg
                  · by_cases h7 : a = asciiBytes "unload_all"
                    · simp +decide [h1, h2, h3, h4, h5, h6, h7]
                      exact unloadAllGo_reg env _ st hreg
                    · simp +decide [h1, h2, h3, h4, h5, h6, h7, unknownAction]
                      exact hreg
      | null => exact hreg
      | bool b => exact hreg
      | num i => exact hreg
      | arr l => exact hreg
      | obj ms => exact hreg

/-- Witness: with no loader tool the load leaves the registry empty, and
the invariant holds across the stale-record state's unload. -/
theorem registry_only_external_loader_witness :
    (handleLoad envNone (initState envNone) (some (.str (asciiBytes "/x")))).state.loaded
      = (initState envNone).loaded ∧
    regAllWebExt (handleMessage envWebExt stWithX
      (.obj [(asciiBytes "action", .str (asciiBytes "unload")),
             (asciiBytes "path", .str (asciiBytes "/x"))])).state := by
  constructor
  · exact ((registry_only_external_loader envNone (initState envNone) statusMsg
      (some (.str (asciiBytes "/x")))).1 (by rfl)).1
  · exact (registry_only_external_loader envWebExt stWithX
      (.obj [(asciiBytes "action", .str (asciiBytes "unload")),
             (asciiBytes "path", .str (asciiBytes "/x"))]) none).2
      (by unfold regAllWebExt; decide)
